import Mathlib

/-!
Verification of the assetblue-data batch scripts.

Strings from the Python sources are modelled as `List Char` (`PyStr`), with
Python's ASCII-range semantics for `str.upper`, `str.lower`, `str.strip`,
`str.split`, `re`'s `\s`/`\w`/`\d` character classes, and `os.path.splitext`.
Machine-level details outside the scripts (the md5 digest, the HTTP stack,
`urlparse`, BeautifulSoup's parse tree) enter the model as explicit parameters
or as the raw data they produce, never as stubs of logic that the scripts
themselves contain.
-/

namespace PyModel

abbrev PyStr := List Char

/-- Python's `str.upper` on the ASCII range (`Char.toUpper` agrees with CPython
there; the scripts' data is ASCII). -/
def upStr (s : PyStr) : PyStr := s.map Char.toUpper

/-- Python's `str.lower` on the ASCII range. -/
def lowStr (s : PyStr) : PyStr := s.map Char.toLower

/-- Python's `\s` class (ASCII): space (32), tab (9), newline (10), carriage
return (13), vertical tab (11), form feed (12). -/
def pySpace (c : Char) : Bool :=
  c.toNat = 32 || c.toNat = 9 || c.toNat = 10 || c.toNat = 13 || c.toNat = 11 || c.toNat = 12

/-- Python's `\w` class (ASCII): `A`-`Z` (65-90), `a`-`z` (97-122),
`0`-`9` (48-57), underscore (95). -/
def pyWord (c : Char) : Bool :=
  (decide (65 ≤ c.toNat) && decide (c.toNat ≤ 90)) ||
  (decide (97 ≤ c.toNat) && decide (c.toNat ≤ 122)) ||
  (decide (48 ≤ c.toNat) && decide (c.toNat ≤ 57)) || c.toNat = 95

/-- Python's `str.strip(chars)`: drop characters satisfying `p` from both ends. -/
def stripChars (p : Char → Bool) (s : PyStr) : PyStr :=
  ((s.dropWhile p).reverse.dropWhile p).reverse

/-- Python's `str.strip()` (no argument): strip whitespace. -/
def pyStrip (s : PyStr) : PyStr := stripChars pySpace s

/-- Python's no-argument `str.split()`: maximal runs of non-whitespace. -/
def pySplit : PyStr → List PyStr
  | [] => []
  | c :: rest =>
    if pySpace c then pySplit rest
    else
      match pySplit rest with
      | [] => [[c]]
      | w :: ws => if rest ≠ [] ∧ pySpace rest.headI = false then (c :: w) :: ws else [c] :: w :: ws

/-- `sep.join` for a single-space separator. -/
def joinSpace : List PyStr → PyStr
  | [] => []
  | [w] => w
  | w :: ws => w ++ ' ' :: joinSpace ws

/-- Substring test, Python's `needle in hay`. -/
def occursIn (needle hay : PyStr) : Bool :=
  hay.tails.any (fun t => needle.isPrefixOf t)

/-- Python string slicing `s[:m]` for a possibly negative bound `m`. -/
def pyTakeTo (s : PyStr) (m : Int) : PyStr :=
  if 0 ≤ m then s.take m.toNat else s.take (s.length - (-m).toNat)

/-- Index (from the front) of the last occurrence of `c` in `s`. -/
def lastIdxOf (c : Char) (s : PyStr) : Option Nat :=
  match s.reverse.findIdx? (· = c) with
  | none => none
  | some k => some (s.length - 1 - k)

/-- `os.path.splitext` (posix): split off the extension at the last dot,
provided the dot lies after the last `/` and some earlier character of the
basename is not a dot (so purely-leading dots never start an extension). -/
def splitext (p : PyStr) : PyStr × PyStr :=
  let base : Nat := match lastIdxOf '/' p with | none => 0 | some i => i + 1
  match lastIdxOf '.' p with
  | none => (p, [])
  | some d =>
    if base ≤ d ∧ ((p.drop base).take (d - base)).any (fun c => c != '.') then
      (p.take d, p.drop d)
    else (p, [])

/-- The character for decimal digit `d`. -/
def digitChar (d : Nat) : Char := Char.ofNat (48 + d)

/-- Decimal digits of `n`, most significant first (`[]` for 0); the fuel is an
upper bound on `n`, making the recursion structural. -/
def natDigitsAux : Nat → Nat → PyStr
  | 0, _ => []
  | fuel + 1, n => if n = 0 then [] else natDigitsAux fuel (n / 10) ++ [digitChar (n % 10)]

/-- Python's `str(n)` for a natural number. -/
def natRepr (n : Nat) : PyStr :=
  if n = 0 then ['0'] else natDigitsAux n n

/-- The number a digit string denotes; used to show `natRepr` is injective. -/
def digitsVal (s : PyStr) : Nat :=
  s.foldl (fun acc c => 10 * acc + (c.toNat - 48)) 0

end PyModel

namespace DownloadUrls

open PyModel

/-- `MAX_FILE_SIZE = 100 * 1024 * 1024` from download_urls_data.py. -/
def MAX_FILE_SIZE : Nat := 100 * 1024 * 1024

/-- `CONCURRENT_DOWNLOADS = 20` from download_urls_data.py. -/
def CONCURRENT_DOWNLOADS : Nat := 20

/-- The characters replaced by `re.sub(r'[<>:"/\\|?*]', '_', filename)`. -/
def invalidChar (c : Char) : Bool :=
  c = '<' || c = '>' || c = ':' || c = '\"' || c = '/' || c = '\\' || c = '|' || c = '?' || c = '*'

/-- `re.sub(r'\s+', '_', s)`: each maximal whitespace run becomes one `_`.
The flag records whether the previous character was part of a run. -/
def collapseWsAux : Bool → PyStr → PyStr
  | _, [] => []
  | inRun, c :: rest =>
    if pySpace c then
      if inRun then collapseWsAux true rest else '_' :: collapseWsAux true rest
    else c :: collapseWsAux false rest

def collapseWs (s : PyStr) : PyStr := collapseWsAux false s

/-- The character-level part of `sanitize_filename`: invalid characters to `_`,
whitespace runs to `_`, then `strip('.')`. -/
def sanitizeCore (s : PyStr) : PyStr :=
  stripChars (· = '.') (collapseWs (s.map (fun c => if invalidChar c then '_' else c)))

/-- `sanitize_filename(filename, max_length)` from download_urls_data.py. -/
def sanitize_filename (s : PyStr) (maxLength : Nat) : PyStr :=
  let f := sanitizeCore s
  let g := if f.length > maxLength then
      let ne := splitext f
      pyTakeTo ne.1 ((maxLength : Int) - (ne.2.length : Int)) ++ ne.2
    else f
  if g = [] then String.toList "unnamed" else g

/-- Input whose extension is longer than the default `max_length = 200`:
`"a."` followed by 300 `b`s. -/
def c6input : PyStr := 'a' :: '.' :: List.replicate 300 'b'

/-- State of `download_batch`'s submission loop: permits currently available on
the `asyncio.Semaphore(CONCURRENT_DOWNLOADS)`, and coroutine objects created
and appended to `tasks` so far. -/
structure SubmitState where
  avail : Nat
  created : Nat
deriving DecidableEq

def acquireSem (st : SubmitState) : SubmitState := { st with avail := st.avail - 1 }

def releaseSem (st : SubmitState) : SubmitState := { st with avail := st.avail + 1 }

/-- `task = download_url(...)` only builds a coroutine object; nothing runs
until the object is awaited. -/
def createCoroutine (st : SubmitState) : SubmitState := { st with created := st.created + 1 }

/-- One iteration of the `for url_data in urls_data` loop: `async with
semaphore` brackets only the creation of the coroutine object (and the
`asyncio.sleep`), so the permit is returned before the coroutine ever runs. -/
def submitOne (st : SubmitState) : SubmitState := releaseSem (createCoroutine (acquireSem st))

def submitLoop : Nat → SubmitState → SubmitState
  | 0, st => st
  | n + 1, st => submitLoop n (submitOne st)

/-- The submission loop of `download_batch` over a batch of `n` URLs. -/
def download_batch_submit (n : Nat) : SubmitState :=
  submitLoop n ⟨CONCURRENT_DOWNLOADS, 0⟩

/-- After the loop, `asyncio.gather(*tasks)` starts every collected coroutine;
while they are all suspended at the network await, every one of them is an
in-flight `download_url` execution. -/
def gatherInFlight (st : SubmitState) : Nat := st.created

/-- The sibling-text post-processing of `download_url` for HTML content:
`' '.join(text.split())[:10000]` applied to the visible text that remains
after BeautifulSoup removed script/style/nav/footer/header elements. -/
def htmlSiblingText (visible : PyStr) : PyStr :=
  (joinSpace (pySplit visible)).take 10000

/-- Modelled from the spec (and the code's own `# Limit to 10k words` comment):
truncation of the visible text to at most 10000 words. -/
def wordLimitText (visible : PyStr) : PyStr :=
  joinSpace ((pySplit visible).take 10000)

/-- A single 10004-character word: under a 10000-word limit it would be kept
whole, but the character slice cuts it. -/
def c9input : PyStr := List.replicate 10004 'a'

/-- `f"{name}_{counter}{ext}"` with `name, ext = os.path.splitext(original_path.name)`:
the candidate path tried for collision counter `k`. -/
def candidateName (orig : PyStr) (k : Nat) : PyStr :=
  (splitext orig).1 ++ '_' :: (natRepr k ++ (splitext orig).2)

/-- The `while file_path.exists()` loop of `download_url`: while the current
candidate exists, rebuild from the original name with the next counter. The
fuel only bounds the number of iterations; `resolvePath` supplies enough fuel
for the loop to find a free name. -/
def resolveAux (fs : List PyStr) (orig : PyStr) : PyStr → Nat → Nat → PyStr
  | p, _, 0 => p
  | p, k, fuel + 1 =>
    if p ∈ fs then resolveAux fs orig (candidateName orig k) (k + 1) fuel else p

/-- The path `download_url` finally writes to, given the set of existing
paths `fs` (as a finite list) and the initially generated path `orig`. -/
def resolvePath (fs : List PyStr) (orig : PyStr) : PyStr :=
  resolveAux fs orig orig 1 (fs.length + 1)

/-- The sequence of candidate paths the loop inspects, starting from current
candidate `p` with next counter `k`. -/
def candSeq (orig p : PyStr) (k : Nat) : Nat → PyStr
  | 0 => p
  | i + 1 => candidateName orig (k + i)

/-- A concrete collision scenario: `a.txt` and `a_1.txt` already exist. -/
def c10fs : List PyStr := [String.toList "a.txt", String.toList "a_1.txt"]

def c10orig : PyStr := String.toList "a.txt"

end DownloadUrls

namespace AddModels

open PyModel

/-- `MIN_MODELS = 3` from add_models_parallel.py. -/
def MIN_MODELS : Nat := 3

/-- `MAX_MODELS = 6` from add_models_parallel.py. -/
def MAX_MODELS : Nat := 6

/-- An element of the `models` array of the API's JSON output: either a string
or some other JSON value (the `isinstance(model, str)` check). -/
inductive PyItem where
  | str (s : PyStr)
  | other
deriving DecidableEq

/-- What the external completion call produced: an API/transport error (raised
as an exception), or a result whose output has a type tag and a `models` list. -/
inductive ApiOutcome where
  | apiError (msg : PyStr)
  | ok (outputType : PyStr) (models : List PyItem)
deriving DecidableEq

/-- The per-entry cleaning loop of `fetch_models`: keep only strings, strip
whitespace, drop entries whose upper-case form is `NONE`, drop empties. -/
def cleanEntries (models : List PyItem) : List PyStr :=
  models.filterMap fun m =>
    match m with
    | .str s =>
      let t := pyStrip s
      if upStr t = String.toList "NONE" then none
      else if t ≠ [] then some t else none
    | .other => none

/-- The seen-set loop of `fetch_models`: case-insensitive de-duplication that
keeps the first occurrence. -/
def dedupCI (seen : List PyStr) : List PyStr → List PyStr
  | [] => []
  | m :: rest =>
    if lowStr m ∈ seen then dedupCI seen rest
    else m :: dedupCI (lowStr m :: seen) rest

/-- `fetch_models` from add_models_parallel.py: an API error propagates as an
exception (`Except.error`); a non-json output yields `[]`; otherwise the
cleaned, de-duplicated list truncated to `MAX_MODELS`. -/
def fetch_models (o : ApiOutcome) : Except PyStr (List PyStr) :=
  match o with
  | .apiError m => .error m
  | .ok ty models =>
    if ty ≠ String.toList "json" then .ok []
    else .ok ((dedupCI [] (cleanEntries models)).take MAX_MODELS)

/-- The model list `process_asset` ends up with: `fetch_models`, with the
`except` clauses turning any API error into `[]`. -/
def processAssetModels (o : ApiOutcome) : List PyStr :=
  match fetch_models o with
  | .ok ms => ms
  | .error _ => []

/-- The raw `models` list underlying an outcome (empty for errors). -/
def rawModels : ApiOutcome → List PyItem
  | .apiError _ => []
  | .ok _ ms => ms

/-- A sample API outcome exercising every cleaning rule of `fetch_models`. -/
def c8sample : ApiOutcome :=
  ApiOutcome.ok (String.toList "json")
    [PyItem.str (String.toList " A1 "), PyItem.str (String.toList "NONE"),
     PyItem.str (String.toList "a1"), PyItem.str (String.toList ""),
     PyItem.other, PyItem.str (String.toList "B2")]

/-- A result row of add_models_parallel.py: the CSV payload together with the
bookkeeping fields `_seq` (original input row) and `_model_idx` (position of
the model within that row's result list). -/
structure ModelRow where
  assetName : PyStr
  subtype : PyStr
  manufacturer : PyStr
  url : PyStr
  model : PyStr
  seq : Nat
  modelIdx : Nat
deriving DecidableEq

def rowKey (r : ModelRow) : Nat × Nat := (r.seq, r.modelIdx)

/-- The sort key comparison of `save_models`: Python's lexicographic tuple
order on `(r["_seq"], r["_model_idx"])`. -/
def keyLe (a b : ModelRow) : Bool :=
  Nat.blt a.seq b.seq || (a.seq == b.seq && Nat.ble a.modelIdx b.modelIdx)

/-- The strict version of `keyLe`, used to state that sorted orders with
pairwise-distinct keys are unique. -/
def keyLt (a b : ModelRow) : Prop := keyLe a b = true ∧ rowKey a ≠ rowKey b

/-- `sorted(rows_with_models, key=...)` — CPython's sort is a stable
comparison sort, modelled by the stable `List.mergeSort`. -/
def orderedRows (rows : List ModelRow) : List ModelRow := rows.mergeSort keyLe

/-- A written CSV row: the payload with the underscore-prefixed bookkeeping
fields dropped. -/
structure CleanRow where
  assetName : PyStr
  subtype : PyStr
  manufacturer : PyStr
  url : PyStr
  model : PyStr
deriving DecidableEq

def cleanRow (r : ModelRow) : CleanRow :=
  ⟨r.assetName, r.subtype, r.manufacturer, r.url, r.model⟩

/-- `save_models` from add_models_parallel.py: the rows as written to the
output CSV (sorted by `(_seq, _model_idx)`, bookkeeping fields dropped). -/
def save_models (rows : List ModelRow) : List CleanRow :=
  (orderedRows rows).map cleanRow

/-- Two concrete result rows of one input row (`_seq = 0`, models `X1`, `X2`). -/
def c7row1 : ModelRow :=
  ⟨String.toList "Boiler", String.toList "Steam", String.toList "Acme",
   String.toList "http://x", String.toList "X1", 0, 0⟩

def c7row2 : ModelRow :=
  ⟨String.toList "Boiler", String.toList "Steam", String.toList "Acme",
   String.toList "http://x", String.toList "X2", 0, 1⟩

end AddModels

namespace CheckPdf

open PyModel

/-- `re.sub(r'[^\w\s]', '', s)`: keep only word and whitespace characters. -/
def cleanPunct (s : PyStr) : PyStr := s.filter (fun c => pyWord c || pySpace c)

/-- `s.replace(" ", "")`. -/
def removeSpaces (s : PyStr) : PyStr := s.filter (fun c => c != ' ')

/-- `s.replace(" ", "-")`. -/
def spacesToHyphens (s : PyStr) : PyStr := s.map (fun c => if c = ' ' then '-' else c)

/-- `s.replace("-", " ")`. -/
def hyphensToSpaces (s : PyStr) : PyStr := s.map (fun c => if c = '-' then ' ' else c)

/-- `re.findall(r'\d+', s)`: the maximal runs of decimal digits. -/
def digitRuns : PyStr → List PyStr
  | [] => []
  | c :: rest =>
    if c.isDigit then
      match digitRuns rest with
      | [] => [[c]]
      | w :: ws => if rest ≠ [] ∧ rest.headI.isDigit then (c :: w) :: ws else [c] :: w :: ws
    else digitRuns rest

/-- Python's `str.isdigit` (ASCII): non-empty and all digits. -/
def pyIsDigit (s : PyStr) : Bool := !s.isEmpty && s.all Char.isDigit

/-- Case-insensitive character comparison, `re.IGNORECASE` on ASCII. -/
def ciEq (a b : Char) : Bool := Char.toUpper a == Char.toUpper b

/-- A case-insensitive occurrence of `pat` at position `i` of `s`. -/
def ciAt (pat s : PyStr) (i : Nat) : Bool :=
  decide (i + pat.length ≤ s.length) &&
  (List.range pat.length).all (fun j => ciEq (pat.getD j ' ') (s.getD (i + j) ' '))

/-- `re.search(A + ".*" + B, s, re.IGNORECASE)` for literal strings `A`, `B`:
an occurrence of `A` followed (with no intervening newline, since `.` does not
match `\n`) by an occurrence of `B`. -/
def dotStarMatch (a b s : PyStr) : Bool :=
  (List.range (s.length + 1)).any (fun i =>
    (List.range (s.length + 1)).any (fun j =>
      ciAt a s i && ciAt b s j && decide (i + a.length ≤ j) &&
      ((s.drop (i + a.length)).take (j - (i + a.length))).all (fun c => c != '\n')))

/-- Is the character at position `i` of `s` a word character (out of range
counts as no)? -/
def wordAt (s : PyStr) (i : Nat) : Bool := decide (i < s.length) && pyWord (s.getD i ' ')

/-- A regex `\b` word boundary at position `i` (between `i - 1` and `i`). -/
def boundary (s : PyStr) (i : Nat) : Bool :=
  (if i = 0 then false else wordAt s (i - 1)) != wordAt s i

/-- `re.search(r'\b' + L + r'\b', s, re.IGNORECASE)` where `L` is (after
`re.escape`) a literal string. -/
def finalRegexSearch (L s : PyStr) : Bool :=
  (List.range (s.length + 1)).any (fun i =>
    ciAt L s i && boundary s i && boundary s (i + L.length))

/-- `model_normalized.replace(" ", r'\s+')` before `re.escape`: because the
escape makes the replacement literal, each space becomes the three literal
characters `\`, `s`, `+`. -/
def escapeSpaces (s : PyStr) : PyStr :=
  s.flatMap (fun c => if c = ' ' then ['\\', 's', '+'] else [c])

/-- `model_normalized = model.strip().upper()`. -/
def modelNormalized (model : PyStr) : PyStr := upStr (pyStrip model)

/-- `model_clean = re.sub(r'[^\w\s]', '', model_normalized)`. -/
def modelClean (model : PyStr) : PyStr := cleanPunct (modelNormalized model)

/-- The five search patterns of `check_model_in_content`. -/
def patternsOf (model : PyStr) : List PyStr :=
  [modelNormalized model, modelClean model, removeSpaces (modelNormalized model),
   spacesToHyphens (modelNormalized model), hyphensToSpaces (modelNormalized model)]

/-- Rule (a): some non-empty pattern occurs verbatim in the upper-cased text. -/
def rule1 (model content : PyStr) : Bool :=
  (patternsOf model).any (fun p => !p.isEmpty && occursIn p (upStr content))

def wordsOf (model : PyStr) : List PyStr := pySplit (modelClean model)

/-- The 100-character sliding-window scan (`range(len(content_upper) - 100)`,
so texts of at most 100 characters are never scanned). -/
def windowHit (words : List PyStr) (contentUpper : PyStr) : Bool :=
  (List.range (contentUpper.length - 100)).any (fun i =>
    decide (words.countP (fun w => occursIn w ((contentUpper.drop i).take 100)) ≥ words.length))

/-- Rule (b): several words, all occurring, and all within some 100-character
window. -/
def rule2 (model content : PyStr) : Bool :=
  decide ((wordsOf model).length > 1) &&
  ((wordsOf model).all fun w => w.isEmpty || occursIn w (upStr content)) &&
  windowHit (wordsOf model) (upStr content)

/-- `model_keywords = [w for w in words if w and not w.isdigit()]`. -/
def keywordsOf (model : PyStr) : List PyStr :=
  (wordsOf model).filter (fun w => !w.isEmpty && !pyIsDigit w)

/-- Rule (c): a number of the model appears "near" (regex `.*`) a keyword. -/
def rule3 (model content : PyStr) : Bool :=
  !(digitRuns (modelNormalized model)).isEmpty &&
  decide ((pySplit (modelNormalized model)).length > 1) &&
  ((digitRuns (modelNormalized model)).any fun num =>
    !(keywordsOf model).isEmpty &&
    ((keywordsOf model).any fun kw =>
      dotStarMatch kw num (upStr content) || dotStarMatch num kw (upStr content)))

/-- Rule (d): the final word-boundary regex, searched in the original text. -/
def rule4 (model content : PyStr) : Bool :=
  finalRegexSearch (escapeSpaces (modelNormalized model)) content

/-- `check_model_in_content` from check_pdf_model_match.py: empty model or
text never match; otherwise the four rules are tried in order, each
`return True` making the chain a disjunction. -/
def check_model_in_content (model content : PyStr) : Bool :=
  if model.isEmpty || content.isEmpty then false
  else rule1 model content || rule2 model content || rule3 model content || rule4 model content

end CheckPdf

namespace PyModel

/-- Python dict assignment `m[key] = v` for a string-keyed mapping. -/
def pyDictSet {β : Type} (m : List (PyStr × β)) (key : PyStr) (v : β) : List (PyStr × β) :=
  if (m.find? (fun kv => kv.1 == key)).isSome then
    m.map (fun kv => if kv.1 == key then (kv.1, v) else kv)
  else m ++ [(key, v)]

/-- Python dict lookup `m.get(key)`. -/
def pyDictGet {β : Type} (m : List (PyStr × β)) (key : PyStr) : Option β :=
  (m.find? (fun kv => kv.1 == key)).map Prod.snd

/-- `sep.join(parts)` for a one-character separator. -/
def joinSep (sep : Char) : List PyStr → PyStr
  | [] => []
  | [w] => w
  | w :: ws => w ++ sep :: joinSep sep ws

end PyModel

namespace DownloadUrls

open PyModel

inductive RStatus where
  | pending
  | success
  | error
deriving DecidableEq

/-- The row fields `generate_filename` reads (`Manufacturer`, `Model`,
`Category`). -/
structure RowData where
  manufacturer : PyStr
  model : PyStr
  category : PyStr
deriving DecidableEq

/-- The `result` dict built by `download_url`. -/
structure DlResult where
  url : PyStr
  urlId : PyStr
  status : RStatus
  contentType : Option PyStr
  filePath : Option PyStr
  textPath : Option PyStr
  fileSize : Nat
  errMsg : Option PyStr
deriving DecidableEq

/-- What the single `session.get` of `download_url` produced. -/
inductive FetchOutcome where
  | timeout
  | clientError (msg : PyStr)
  | otherExn (msg : PyStr)
  | ok (status : Nat) (contentType : PyStr) (contentLength : Option Nat) (body : List Char)
deriving DecidableEq

/-- The world outside the script, per URL: the md5 hex digest of the URL, the
(unquoted) path component from `urlparse`, the network outcome, whether the
filesystem write raises, and whether BeautifulSoup text extraction succeeds. -/
structure DlEnv where
  md5hex : PyStr
  parsedPath : PyStr
  outcome : FetchOutcome
  writeExn : Option PyStr
  htmlExtractOk : Bool
deriving DecidableEq

/-- The mutable state `download_url` touches: the progress dict, the error
log list, the set of existing file paths, and a count of HTTP requests
actually issued. -/
structure DlState where
  progress : List (PyStr × DlResult)
  errors : List DlResult
  fs : List PyStr
  netCalls : Nat
deriving DecidableEq

def PDF_EXTENSIONS : List PyStr := [String.toList ".pdf"]

def IMAGE_EXTENSIONS : List PyStr :=
  [String.toList ".jpg", String.toList ".jpeg", String.toList ".png", String.toList ".gif",
   String.toList ".webp", String.toList ".svg", String.toList ".bmp", String.toList ".tiff",
   String.toList ".ico"]

def DOC_EXTENSIONS : List PyStr :=
  [String.toList ".doc", String.toList ".docx", String.toList ".xls", String.toList ".xlsx",
   String.toList ".ppt", String.toList ".pptx"]

/-- `get_file_extension(url, content_type)`: extension from the URL path
first, then from the content type, defaulting to `.bin`. -/
def get_file_extension (parsedPath : PyStr) (contentType : PyStr) : PyStr :=
  let fromUrl : Option PyStr :=
    if '.' ∈ parsedPath then
      let ext := lowStr (splitext parsedPath).2
      if ext ≠ [] then some ext else none
    else none
  match fromUrl with
  | some e => e
  | none =>
    let ct := lowStr contentType
    if occursIn (String.toList "pdf") ct then String.toList ".pdf"
    else if occursIn (String.toList "html") ct || occursIn (String.toList "text/html") ct then
      String.toList ".html"
    else if occursIn (String.toList "jpeg") ct || occursIn (String.toList "jpg") ct then
      String.toList ".jpg"
    else if occursIn (String.toList "png") ct then String.toList ".png"
    else if occursIn (String.toList "gif") ct then String.toList ".gif"
    else if occursIn (String.toList "json") ct then String.toList ".json"
    else if occursIn (String.toList "xml") ct then String.toList ".xml"
    else if occursIn (String.toList "text") ct then String.toList ".txt"
    else String.toList ".bin"

/-- `generate_filename(url, row_data, content_type)`; `md5hex8` is
`hashlib.md5(url.encode()).hexdigest()[:8]`. -/
def generate_filename (md5hex8 parsedPath : PyStr) (rowData : RowData) (contentType : PyStr) :
    PyStr :=
  let parts :=
    (if rowData.manufacturer ≠ [] then [sanitize_filename rowData.manufacturer 30] else []) ++
    (if rowData.model ≠ [] then [sanitize_filename rowData.model 30] else []) ++
    (if rowData.category ≠ [] then [sanitize_filename rowData.category 20] else [])
  let baseName := if parts ≠ [] then joinSep '_' parts else String.toList "download"
  let ext := get_file_extension parsedPath contentType
  baseName ++ '_' :: (md5hex8 ++ ext)

/-- The save-directory selection of `download_url` (`ct` already lowercased). -/
def saveDirFor (ext ct : PyStr) : PyStr :=
  if PDF_EXTENSIONS.contains ext || occursIn (String.toList "pdf") ct then String.toList "pdfs"
  else if IMAGE_EXTENSIONS.contains ext || occursIn (String.toList "image") ct then
    String.toList "images"
  else if DOC_EXTENSIONS.contains ext ||
      ([String.toList "msword", String.toList "spreadsheet", String.toList "presentation"].any
        (fun d => occursIn d ct)) then String.toList "documents"
  else if ext = String.toList ".html" || occursIn (String.toList "html") ct then
    String.toList "html"
  else String.toList "other"

def initResult (url urlId : PyStr) : DlResult :=
  { url := url, urlId := urlId, status := RStatus.pending, contentType := none,
    filePath := none, textPath := none, fileSize := 0, errMsg := none }

/-- Record an error outcome: `errors.append(result)`; whether the progress
dict is also updated depends on the call site (the early `return`s inside the
`try` skip the `progress[url_id] = result` line). -/
def recordError (st : DlState) (urlId : PyStr) (res : DlResult) (updateProgress : Bool) :
    DlState :=
  { st with errors := st.errors ++ [res],
            progress := if updateProgress then pyDictSet st.progress urlId res else st.progress }

/-- The part of `download_url` after the size checks: pick directory and
filename, resolve collisions, write the file, and for HTML also write the
text sibling (its extraction failures are silently ignored). -/
def downloadUrlBody (env : DlEnv) (st : DlState) (urlId : PyStr) (result : DlResult)
    (rowData : RowData) (ct : PyStr) (body : List Char) : DlResult × DlState :=
  if body.length > MAX_FILE_SIZE then
    let res := { result with
      status := RStatus.error,
      errMsg := some (String.toList "File too large: " ++ natRepr body.length ++
        String.toList " bytes") }
    (res, recordError st urlId res false)
  else
    let ext := get_file_extension env.parsedPath ct
    let saveDir := saveDirFor ext ct
    let filename := generate_filename (env.md5hex.take 8) env.parsedPath rowData ct
    let filePath := resolvePath st.fs (saveDir ++ '/' :: filename)
    match env.writeExn with
    | some m =>
      let res := { result with
        status := RStatus.error,
        errMsg := some (String.toList "Error: " ++ m.take 100) }
      (res, recordError st urlId res true)
    | none =>
      let st := { st with fs := st.fs ++ [filePath] }
      let res0 := { result with
        status := RStatus.success,
        filePath := some filePath,
        fileSize := body.length }
      if ext = String.toList ".html" || occursIn (String.toList "html") ct then
        if env.htmlExtractOk then
          let textPath := (splitext filePath).1 ++ String.toList "_text.txt"
          let res := { res0 with textPath := some textPath }
          (res, { st with fs := st.fs ++ [textPath],
                          progress := pyDictSet st.progress urlId res })
        else (res0, { st with progress := pyDictSet st.progress urlId res0 })
      else (res0, { st with progress := pyDictSet st.progress urlId res0 })

/-- The body of `download_url`'s `try`/`except`, after the progress-skip
check: one HTTP request, then the status/size checks. -/
def downloadUrlFetch (env : DlEnv) (url : PyStr) (rowData : RowData) (st : DlState)
    (urlId : PyStr) : DlResult × DlState :=
  let st := { st with netCalls := st.netCalls + 1 }
  let result := initResult url urlId
  match env.outcome with
  | FetchOutcome.timeout =>
    let res := { result with
      status := RStatus.error,
      errMsg := some (String.toList "Request timeout") }
    (res, recordError st urlId res true)
  | FetchOutcome.clientError m =>
    let res := { result with
      status := RStatus.error,
      errMsg := some (String.toList "Client error: " ++ m.take 100) }
    (res, recordError st urlId res true)
  | FetchOutcome.otherExn m =>
    let res := { result with
      status := RStatus.error,
      errMsg := some (String.toList "Error: " ++ m.take 100) }
    (res, recordError st urlId res true)
  | FetchOutcome.ok status ct0 clen body =>
    if status ≠ 200 then
      let res := { result with
        status := RStatus.error,
        errMsg := some (String.toList "HTTP " ++ natRepr status) }
      (res, recordError st urlId res false)
    else
      let ct := lowStr ct0
      let result := { result with contentType := some ct }
      match clen with
      | some n =>
        if n > MAX_FILE_SIZE then
          let res := { result with
            status := RStatus.error,
            errMsg := some (String.toList "File too large: " ++ natRepr n ++
              String.toList " bytes") }
          (res, recordError st urlId res false)
        else downloadUrlBody env st urlId result rowData ct body
      | none => downloadUrlBody env st urlId result rowData ct body

/-- Does the progress dict mark this key as a successful download? -/
def isSuccessAt (progress : List (PyStr × DlResult)) (key : PyStr) : Bool :=
  match pyDictGet progress key with
  | some r => decide (r.status = RStatus.success)
  | none => false

/-- `download_url` from download_urls_data.py. -/
def download_url (env : DlEnv) (url : PyStr) (rowData : RowData) (st : DlState) :
    DlResult × DlState :=
  let urlId := env.md5hex
  match pyDictGet st.progress urlId with
  | some r =>
    if r.status = RStatus.success then (r, st)
    else downloadUrlFetch env url rowData st urlId
  | none => downloadUrlFetch env url rowData st urlId

/-- Does an error arise while processing this item (any of: transport error,
timeout, non-200 status, oversize declared or actual length, write failure)? -/
def envError (env : DlEnv) : Bool :=
  match env.outcome with
  | FetchOutcome.timeout => true
  | FetchOutcome.clientError _ => true
  | FetchOutcome.otherExn _ => true
  | FetchOutcome.ok status _ clen body =>
    decide (status ≠ 200) ||
    (match clen with | some n => decide (n > MAX_FILE_SIZE) | none => false) ||
    decide (body.length > MAX_FILE_SIZE) || env.writeExn.isSome

/-- Processing a list of work items one `download_url` at a time (the
cooperative scheduling of the batch does not reorder per-item effects in a
way any claim here depends on). -/
def download_sequential (envOf : PyStr → DlEnv) :
    List (PyStr × RowData) → DlState → List DlResult × DlState
  | [], st => ([], st)
  | (url, row) :: rest, st =>
    let pr := download_url (envOf url) url row st
    let prs := download_sequential envOf rest pr.2
    (pr.1 :: prs.1, prs.2)

/-- A concrete environment in which the item downloads fine but the HTML
sibling-text extraction fails. -/
def c3env : DlEnv :=
  { md5hex := String.toList "00112233445566778899aabbccddeeff",
    parsedPath := String.toList "/page.html",
    outcome := FetchOutcome.ok 200 (String.toList "text/html") none (String.toList "<p>hi</p>"),
    writeExn := none,
    htmlExtractOk := false }

def c3row : RowData := ⟨String.toList "Acme", String.toList "X1", []⟩

def c3state : DlState := { progress := [], errors := [], fs := [], netCalls := 0 }

/-- An environment whose response declares an oversize `Content-Length`. -/
def c4envHeader : DlEnv :=
  { md5hex := String.toList "00112233445566778899aabbccddeeff",
    parsedPath := String.toList "/f.pdf",
    outcome := FetchOutcome.ok 200 (String.toList "application/pdf")
      (some (MAX_FILE_SIZE + 1)) [],
    writeExn := none,
    htmlExtractOk := true }

/-- An environment whose response lies about its length: no header, but an
oversize body. -/
def c4envBody : DlEnv :=
  { md5hex := String.toList "00112233445566778899aabbccddeeff",
    parsedPath := String.toList "/f.pdf",
    outcome := FetchOutcome.ok 200 (String.toList "application/pdf") none
      (List.replicate (MAX_FILE_SIZE + 1) 'x'),
    writeExn := none,
    htmlExtractOk := true }

/-- The observable effects of one run of `main` in download_urls_data.py. -/
structure MainEffects where
  netCalls : Nat
  finalProgress : List (PyStr × DlResult)
  progressSaves : Nat
  fs : List PyStr
deriving DecidableEq

/-- `main` from download_urls_data.py: load progress, filter out URLs whose
md5 already has a successful entry, return immediately (no network, no save)
if nothing remains, else download the remainder and save. -/
def downloadMain (envOf : PyStr → DlEnv) (urlsData : List (PyStr × RowData))
    (progress : List (PyStr × DlResult)) (errors : List DlResult) (fs : List PyStr) :
    MainEffects :=
  let downloadedIds := (progress.filter (fun kv => kv.2.status == RStatus.success)).map Prod.fst
  let remaining := urlsData.filter (fun ud => !(downloadedIds.contains (envOf ud.1).md5hex))
  if remaining.isEmpty then
    { netCalls := 0, finalProgress := progress, progressSaves := 0, fs := fs }
  else
    let run := download_sequential envOf remaining
      { progress := progress, errors := errors, fs := fs, netCalls := 0 }
    { netCalls := run.2.netCalls, finalProgress := run.2.progress, progressSaves := 1,
      fs := run.2.fs }

end DownloadUrls

namespace UploadR2

open PyModel DownloadUrls

/-- A progress entry of upload_to_r2.py. -/
structure UpRec where
  s3Key : PyStr
  status : RStatus
deriving DecidableEq

/-- `generate_s3_key`: the path relative to the download root with
backslashes turned into forward slashes. -/
def generate_s3_key (p : PyStr) : PyStr := p.map (fun c => if c = '\\' then '/' else c)

def uploadResult (f : PyStr) (ok : Bool) : UpRec :=
  { s3Key := generate_s3_key f, status := if ok then RStatus.success else RStatus.error }

/-- The observable effects of one run of `main` in upload_to_r2.py. -/
structure UpEffects where
  headBucketCalls : Nat
  uploadCalls : Nat
  progressSaves : Nat
  finalProgress : List (PyStr × UpRec)
deriving DecidableEq

/-- `main` from upload_to_r2.py: after connecting it always issues one
`head_bucket` request to test the bucket, then filters out files whose S3 key
is already marked uploaded, returns if nothing remains, else uploads the
remainder. `files` holds the paths relative to the download root. -/
def uploadMain (files : List PyStr) (progress : List (PyStr × UpRec)) (force : Bool)
    (uploadOk : PyStr → Bool) : UpEffects :=
  let headBucketCalls := 1
  let uploadedKeys :=
    (progress.filter (fun kv => kv.2.status == RStatus.success)).map (fun kv => kv.2.s3Key)
  let remaining :=
    if force then files else files.filter (fun f => !(uploadedKeys.contains (generate_s3_key f)))
  if remaining.isEmpty then
    { headBucketCalls := headBucketCalls, uploadCalls := 0, progressSaves := 0,
      finalProgress := progress }
  else
    { headBucketCalls := headBucketCalls, uploadCalls := remaining.length, progressSaves := 1,
      finalProgress := remaining.foldl
        (fun acc f => pyDictSet acc (generate_s3_key f) (uploadResult f (uploadOk f))) progress }

/-- One already-uploaded file for the counterexample run. -/
def c1file : PyStr := String.toList "pdfs/Acme_X1_00112233.pdf"

def c1progress : List (PyStr × UpRec) :=
  [(generate_s3_key c1file, { s3Key := generate_s3_key c1file, status := RStatus.success })]

end UploadR2

namespace CheckPdf

open PyModel

/-- What `extract_text_from_url` produced for a row: a `(text, error)` pair,
or an exception escaping into `process_single_row`'s `except` clause. -/
inductive ExtractOutcome where
  | res (text : PyStr) (msg : Option PyStr)
  | exn (msg : PyStr)
deriving DecidableEq

/-- `process_single_row` from check_pdf_model_match.py, reduced to the
`Model_Related` cell value it reports for the row. -/
def process_single_row (o : ExtractOutcome) (model : PyStr) : PyStr :=
  match o with
  | ExtractOutcome.exn m => String.toList "Error: " ++ m
  | ExtractOutcome.res text msg =>
    if text = [] then
      let detail := match msg with
        | some m => if m.isEmpty then String.toList "Could not extract text" else m
        | none => String.toList "Could not extract text"
      String.toList "Error: " ++ detail
    else if check_model_in_content model text then String.toList "Yes"
    else String.toList "No"

/-- Did an error arise for this row (extraction yielded no text, or the
handler body raised)? -/
def extractError : ExtractOutcome → Bool
  | ExtractOutcome.exn _ => true
  | ExtractOutcome.res text _ => text.isEmpty

/-- A row of the cross-check CSV (missing values modelled as empty strings). -/
structure CsvRow where
  url : PyStr
  cloudflare : PyStr
  contentType : PyStr
  model : PyStr
  modelRelated : PyStr
deriving DecidableEq

/-- `has_cloudflare | has_original_url`. -/
def hasUrl (r : CsvRow) : Bool := !r.cloudflare.isEmpty || !r.url.isEmpty

/-- The `processed_mask`: `Model_Related` present, non-empty, and not just
whitespace. -/
def processedRow (r : CsvRow) : Bool := !(pyStrip r.modelRelated).isEmpty

/-- `process_csv` from check_pdf_model_match.py (no `max_rows` limit),
reduced to the number of per-row network fetches performed and the final
table. If every URL row is processed and at least one exists, it returns
before scheduling anything; otherwise each pending row is fetched once and
its cell updated in place, and the table is rewritten with the same rows. -/
def process_csv (rows : List CsvRow) (extractOf : CsvRow → ExtractOutcome) :
    Nat × List CsvRow :=
  let allWithUrls := rows.filter hasUrl
  let alreadyProcessed := allWithUrls.filter processedRow
  let rowsToProcess := allWithUrls.filter (fun r => !processedRow r)
  if rowsToProcess.isEmpty && !alreadyProcessed.isEmpty then (0, rows)
  else
    (rowsToProcess.length,
     rows.map (fun r =>
       if hasUrl r && !processedRow r then
         { r with modelRelated := process_single_row (extractOf r) r.model }
       else r))

end CheckPdf

namespace PyModel

theorem charToNat_ofNat {n : Nat} (h : n.isValidChar) : (Char.ofNat n).toNat = n := by
  simp only [Char.ofNat, dif_pos h, Char.ofNatAux, Char.toNat, UInt32.toNat]
  simp [BitVec.toNat_ofNatLt]

theorem toUpper_def (c : Char) :
    Char.toUpper c = if c.toNat ≥ 97 ∧ c.toNat ≤ 122 then Char.ofNat (c.toNat - 32) else c := rfl

theorem toUpper_idem (c : Char) : (Char.toUpper c).toUpper = Char.toUpper c := by
  rw [toUpper_def c]
  by_cases h : c.toNat ≥ 97 ∧ c.toNat ≤ 122
  · rw [if_pos h, toUpper_def]
    have hv : (Char.ofNat (c.toNat - 32)).toNat = c.toNat - 32 :=
      charToNat_ofNat (Or.inl (by omega))
    rw [hv, if_neg (by omega)]
  · rw [if_neg h, toUpper_def, if_neg h]

theorem upStr_idem (s : PyStr) : upStr (upStr s) = upStr s := by
  simp only [upStr, List.map_map]
  induction s with
  | nil => rfl
  | cons c rest ih =>
    simp only [List.map_cons] at *
    rw [Function.comp_apply, toUpper_idem]
    exact congrArg _ (by simpa using ih)

theorem occursIn_iff (needle hay : PyStr) : occursIn needle hay = true ↔ needle <:+: hay := by
  constructor
  · intro h
    simp only [occursIn, List.any_eq_true] at h
    obtain ⟨t, ht, hp⟩ := h
    rw [List.mem_tails] at ht
    exact List.infix_iff_prefix_suffix.2 ⟨t, ⟨(List.isPrefixOf_iff_prefix ..).1 hp, ht⟩⟩
  · intro h
    obtain ⟨t, hp, hs⟩ := List.infix_iff_prefix_suffix.1 h
    simp only [occursIn, List.any_eq_true]
    exact ⟨t, (List.mem_tails ..).2 hs, (List.isPrefixOf_iff_prefix ..).2 hp⟩

theorem dropWhileSelf {α : Type} {p : α → Bool} {l : List α}
    (h : ∀ a ∈ l.head?, p a = false) : l.dropWhile p = l := by
  cases l with
  | nil => rfl
  | cons a t =>
    rw [List.dropWhile_cons, if_neg]
    simp only [List.head?_cons, Option.mem_some_iff] at h
    simp [h a rfl]

theorem headDropWhile {α : Type} (p : α → Bool) (l : List α) :
    ∀ a ∈ (l.dropWhile p).head?, p a = false := by
  intro a ha
  cases hd : l.dropWhile p with
  | nil => rw [hd] at ha; simp at ha
  | cons b t =>
    rw [hd] at ha
    simp only [List.head?_cons, Option.mem_some_iff] at ha
    subst ha
    have := List.head_dropWhile_not p l (by rw [hd]; simp)
    simpa [hd] using this

theorem getLastOfSuffix {α : Type} {s l : List α} (h : s <:+ l) (hne : s ≠ []) :
    l.getLast? = s.getLast? := by
  obtain ⟨w, rfl⟩ := h
  rw [List.getLast?_append]
  cases hs : s.getLast? with
  | none => exact absurd (List.getLast?_eq_none_iff.1 hs) hne
  | some a => rfl

/-- The first character of `stripChars p s` does not satisfy `p`. -/
theorem stripCharsHead {p : Char → Bool} (s : PyStr) :
    ∀ a ∈ (stripChars p s).head?, p a = false := by
  intro a ha
  unfold stripChars at ha
  rw [List.head?_reverse] at ha
  have hne : (s.dropWhile p).reverse.dropWhile p ≠ [] := by
    intro h; rw [h] at ha; simp at ha
  have h1 : (s.dropWhile p).reverse.getLast? = ((s.dropWhile p).reverse.dropWhile p).getLast? :=
    getLastOfSuffix (List.dropWhile_suffix p) hne
  rw [← h1, List.getLast?_reverse] at ha
  exact headDropWhile p s a ha

/-- The last character of `stripChars p s` does not satisfy `p`. -/
theorem stripCharsLast {p : Char → Bool} (s : PyStr) :
    ∀ a ∈ (stripChars p s).getLast?, p a = false := by
  intro a ha
  unfold stripChars at ha
  rw [List.getLast?_reverse] at ha
  exact headDropWhile p _ a ha

theorem stripCharsFix {p : Char → Bool} {t : PyStr}
    (h1 : ∀ a ∈ t.head?, p a = false) (h2 : ∀ a ∈ t.getLast?, p a = false) :
    stripChars p t = t := by
  unfold stripChars
  rw [dropWhileSelf h1, dropWhileSelf (by rw [List.head?_reverse]; exact h2)]
  exact List.reverse_reverse t

theorem stripCharsIdem {p : Char → Bool} (s : PyStr) :
    stripChars p (stripChars p s) = stripChars p s :=
  stripCharsFix (stripCharsHead s) (stripCharsLast s)

theorem pyStripIdem (s : PyStr) : pyStrip (pyStrip s) = pyStrip s := stripCharsIdem s

end PyModel

namespace DownloadUrls

open PyModel

/-- Every character produced by the whitespace-collapsing pass is either the
replacement `_` or a non-whitespace character of the input. -/
theorem collapseWsAux_chars (flag : Bool) (s : PyStr) :
    ∀ c ∈ collapseWsAux flag s, c = '_' ∨ (c ∈ s ∧ pySpace c = false) := by
  induction s generalizing flag with
  | nil => intro c hc; simp [collapseWsAux] at hc
  | cons a rest ih =>
    intro c hc
    by_cases ha : pySpace a = true
    · simp only [collapseWsAux, if_pos ha] at hc
      by_cases hf : flag
      · subst hf
        rcases ih true c hc with h | ⟨hmem, hns⟩
        · exact Or.inl h
        · exact Or.inr ⟨List.mem_cons_of_mem _ hmem, hns⟩
      · simp only [Bool.not_eq_true] at hf
        subst hf
        rcases List.mem_cons.1 hc with h | h
        · exact Or.inl h
        · rcases ih true c h with h' | ⟨hmem, hns⟩
          · exact Or.inl h'
          · exact Or.inr ⟨List.mem_cons_of_mem _ hmem, hns⟩
    · simp only [collapseWsAux, if_neg ha] at hc
      rcases List.mem_cons.1 hc with h | h
      · subst h
        exact Or.inr ⟨List.mem_cons_self .., by simpa using ha⟩
      · rcases ih false c h with h' | ⟨hmem, hns⟩
        · exact Or.inl h'
        · exact Or.inr ⟨List.mem_cons_of_mem _ hmem, hns⟩

theorem stripChars_subset (p : Char → Bool) (s : PyStr) : stripChars p s ⊆ s := by
  intro c hc
  simp only [stripChars, List.mem_reverse] at hc
  have h1 := (List.dropWhile_sublist _).subset hc
  rw [List.mem_reverse] at h1
  exact (List.dropWhile_sublist (l := s) (p := p)).subset h1

/-- All characters of `sanitizeCore s` are safe: not among the nine reserved
characters and not whitespace. -/
theorem sanitizeCore_chars (s : PyStr) :
    ∀ c ∈ sanitizeCore s, invalidChar c = false ∧ pySpace c = false := by
  intro c hc
  have hmem := stripChars_subset _ _ hc
  rcases collapseWsAux_chars false _ c hmem with h | ⟨hmem', hns⟩
  · subst h; exact ⟨by decide, by decide⟩
  · rcases List.mem_map.1 hmem' with ⟨a, _, ha⟩
    by_cases hbad : invalidChar a = true
    · rw [if_pos hbad] at ha; subst ha; exact ⟨by decide, by decide⟩
    · rw [if_neg hbad] at ha
      subst ha
      exact ⟨by simpa using hbad, hns⟩

set_option maxRecDepth 8000

theorem splitext_parts_subset (p : PyStr) :
    (splitext p).1 ⊆ p ∧ (splitext p).2 ⊆ p := by
  unfold splitext
  cases h : lastIdxOf '.' p with
  | none => simp
  | some d =>
    simp only []
    split
    · exact ⟨(List.take_sublist ..).subset, (List.drop_sublist ..).subset⟩
    · simp

/-- Claim C6 as stated is false: on the input `"a." ++ 300 b's` with the
default `max_length = 200`, `sanitize_filename` keeps the whole 301-character
extension, so the result is longer than `max_length`. -/
theorem claim_C6_counterexample :
    200 < (sanitize_filename c6input 200).length := by decide

/-- Claim C6 (amended): `sanitize_filename` always returns a non-empty name
containing none of the reserved characters and no whitespace; its length is
at most `max_length` provided `max_length` is at least 7 (the length of the
`"unnamed"` fallback) and the extension split off during truncation is itself
at most `max_length` long. -/
theorem claim_C6_amended (s : PyStr) (maxLength : Nat) (h7 : 7 ≤ maxLength)
    (hext : (splitext (sanitizeCore s)).2.length ≤ maxLength) :
    sanitize_filename s maxLength ≠ [] ∧
    (∀ c ∈ sanitize_filename s maxLength, invalidChar c = false ∧ pySpace c = false) ∧
    (sanitize_filename s maxLength).length ≤ maxLength := by
  unfold sanitize_filename
  set f := sanitizeCore s with hf
  set g := if f.length > maxLength then
      pyTakeTo (splitext f).1 ((maxLength : Int) - ((splitext f).2.length : Int)) ++ (splitext f).2
    else f with hg
  have hgchars : ∀ c ∈ g, invalidChar c = false ∧ pySpace c = false := by
    intro c hc
    rw [hg] at hc
    split at hc
    · rcases List.mem_append.1 hc with h | h
      · have : c ∈ (splitext f).1 := by
          unfold pyTakeTo at h
          split at h
          · exact (List.take_sublist ..).subset h
          · exact (List.take_sublist ..).subset h
        exact sanitizeCore_chars s c ((splitext_parts_subset f).1 this)
      · exact sanitizeCore_chars s c ((splitext_parts_subset f).2 h)
    · exact sanitizeCore_chars s c hc
  have hglen : g.length ≤ maxLength := by
    rw [hg]
    split
    · rename_i hlong
      rw [List.length_append]
      have hm : (0 : Int) ≤ (maxLength : Int) - ((splitext f).2.length : Int) := by
        omega
      unfold pyTakeTo
      rw [if_pos hm, List.length_take]
      have : ((maxLength : Int) - ((splitext f).2.length : Int)).toNat =
          maxLength - (splitext f).2.length := by omega
      rw [this]
      omega
    · omega
  by_cases hempty : g = []
  · rw [if_pos hempty]
    refine ⟨by decide, ?_, by simpa using h7⟩
    intro c hc
    have hall : ((String.toList "unnamed").all fun c => !invalidChar c && !pySpace c) = true := by
      decide
    rw [List.all_eq_true] at hall
    have h2 := hall c hc
    simp only [Bool.and_eq_true, Bool.not_eq_true'] at h2
    exact h2
  · rw [if_neg hempty]
    exact ⟨hempty, hgchars, hglen⟩

/-- Witness for `claim_C6_amended` at the concrete input `" ab<c.txt "`. -/
theorem claim_C6_witness :
    sanitize_filename (String.toList " ab<c.txt ") 200 ≠ [] ∧
    (∀ c ∈ sanitize_filename (String.toList " ab<c.txt ") 200,
      invalidChar c = false ∧ pySpace c = false) ∧
    (sanitize_filename (String.toList " ab<c.txt ") 200).length ≤ 200 :=
  claim_C6_amended (String.toList " ab<c.txt ") 200 (by decide) (by decide)

end DownloadUrls

namespace AddModels

open PyModel

theorem dedupCI_sublist (seen : List PyStr) (l : List PyStr) :
    (dedupCI seen l).Sublist l := by
  induction l generalizing seen with
  | nil => simp [dedupCI]
  | cons x rest ih =>
    unfold dedupCI
    split
    · exact (ih seen).trans (List.sublist_cons_self ..)
    · exact (ih _).cons₂ x

theorem dedupCI_notSeen (seen : List PyStr) (l : List PyStr) :
    ∀ m ∈ dedupCI seen l, lowStr m ∉ seen := by
  induction l generalizing seen with
  | nil => intro m hm; simp [dedupCI] at hm
  | cons x rest ih =>
    intro m hm
    unfold dedupCI at hm
    split at hm
    · exact ih seen m hm
    · rcases List.mem_cons.1 hm with h | h
      · subst h; assumption
      · have h2 := ih (lowStr x :: seen) m h
        exact fun hc => h2 (List.mem_cons_of_mem _ hc)

theorem dedupCI_pairwise (seen : List PyStr) (l : List PyStr) :
    List.Pairwise (fun a b => lowStr a ≠ lowStr b) (dedupCI seen l) := by
  induction l generalizing seen with
  | nil => simp [dedupCI]
  | cons x rest ih =>
    unfold dedupCI
    split
    · exact ih seen
    · refine List.Pairwise.cons ?_ (ih _)
      intro b hb hEq
      exact dedupCI_notSeen _ _ b hb (by rw [← hEq]; exact List.mem_cons_self ..)

/-- Every survivor of the de-duplication pass is the first element of the
cleaned list with its (lower-cased) key. -/
theorem dedupCI_first (seen : List PyStr) (l : List PyStr) :
    ∀ m ∈ dedupCI seen l, lowStr m ∉ seen ∧
      (l.filter (fun x => lowStr x == lowStr m)).head? = some m := by
  induction l generalizing seen with
  | nil => intro m hm; simp [dedupCI] at hm
  | cons x rest ih =>
    intro m hm
    unfold dedupCI at hm
    split at hm
    · rename_i hx
      obtain ⟨hns, hfirst⟩ := ih seen m hm
      refine ⟨hns, ?_⟩
      rw [List.filter_cons, if_neg, hfirst]
      intro hc
      exact hns (by rw [← beq_iff_eq.1 hc]; exact hx)
    · rename_i hx
      rcases List.mem_cons.1 hm with h | h
      · subst h
        refine ⟨hx, ?_⟩
        rw [List.filter_cons, if_pos (by simp), List.head?_cons]
      · obtain ⟨hns, hfirst⟩ := ih (lowStr x :: seen) m h
        have hxm : lowStr x ≠ lowStr m := fun hc => hns (by rw [← hc]; exact List.mem_cons_self ..)
        refine ⟨fun hc => hns (List.mem_cons_of_mem _ hc), ?_⟩
        rw [List.filter_cons, if_neg (by simpa using hxm), hfirst]

/-- Every entry surviving the cleaning loop is non-empty, whitespace-trimmed,
and not the `NONE` sentinel (up to case). -/
theorem cleanEntries_props (models : List PyItem) :
    ∀ m ∈ cleanEntries models, m ≠ [] ∧ pyStrip m = m ∧ upStr m ≠ String.toList "NONE" := by
  intro m hm
  simp only [cleanEntries, List.mem_filterMap] at hm
  obtain ⟨item, _, hsome⟩ := hm
  cases item with
  | other => simp at hsome
  | str s =>
    simp only at hsome
    split at hsome
    · simp at hsome
    · rename_i hnone
      split at hsome
      · rename_i hne
        rw [Option.some_inj] at hsome
        subst hsome
        exact ⟨hne, pyStripIdem s, hnone⟩
      · simp at hsome

theorem processAssetModels_err (e : PyStr) : processAssetModels (ApiOutcome.apiError e) = [] := rfl

theorem processAssetModels_ok (ty : PyStr) (ms : List PyItem) :
    processAssetModels (ApiOutcome.ok ty ms) =
      if ty = String.toList "json" then (dedupCI [] (cleanEntries ms)).take MAX_MODELS
      else [] := by
  have hfm : fetch_models (ApiOutcome.ok ty ms) =
      if ty ≠ String.toList "json" then Except.ok []
      else Except.ok ((dedupCI [] (cleanEntries ms)).take MAX_MODELS) := rfl
  unfold processAssetModels
  rw [hfm]
  by_cases h : ty = String.toList "json"
  · rw [if_neg (not_not_intro h), if_pos h]
  · rw [if_pos h, if_neg h]

/-- Claim C8: the model list produced for an item contains only non-empty,
trimmed strings, none equal to `"NONE"`, no two equal ignoring case with the
first occurrence kept, at most `MAX_MODELS = 6` entries; an API error yields
the empty list. -/
theorem claim_C8 (o : ApiOutcome) (msg : PyStr) :
    (∀ m ∈ processAssetModels o,
        m ≠ [] ∧ pyStrip m = m ∧ m ≠ String.toList "NONE" ∧
        ((cleanEntries (rawModels o)).filter (fun x => lowStr x == lowStr m)).head? = some m) ∧
    List.Pairwise (fun a b => lowStr a ≠ lowStr b) (processAssetModels o) ∧
    (processAssetModels o).length ≤ MAX_MODELS ∧
    processAssetModels (ApiOutcome.apiError msg) = [] := by
  refine ⟨?_, ?_, ?_, rfl⟩
  · intro m hm
    cases o with
    | apiError e => rw [processAssetModels_err] at hm; simp at hm
    | ok ty ms =>
      rw [processAssetModels_ok] at hm
      split at hm
      · have hmem : m ∈ dedupCI [] (cleanEntries ms) := (List.take_sublist ..).subset hm
        have h1 : m ∈ cleanEntries ms := (dedupCI_sublist [] _).subset hmem
        obtain ⟨hne, hfix, hnone⟩ := cleanEntries_props ms m h1
        refine ⟨hne, hfix, ?_, ?_⟩
        · intro hEq
          apply hnone
          rw [hEq]
          decide
        · simpa [rawModels] using (dedupCI_first [] _ m hmem).2
      · simp at hm
  · cases o with
    | apiError e => rw [processAssetModels_err]; exact List.Pairwise.nil
    | ok ty ms =>
      rw [processAssetModels_ok]
      split
      · exact List.Pairwise.sublist (List.take_sublist ..) (dedupCI_pairwise [] _)
      · exact List.Pairwise.nil
  · cases o with
    | apiError e => rw [processAssetModels_err]; simp
    | ok ty ms =>
      rw [processAssetModels_ok]
      split
      · simp only [List.length_take]
        exact inf_le_left
      · simp

end AddModels

namespace DownloadUrls

open PyModel

/-- Claim C2 is violated by the code: the semaphore is acquired and released
around the mere creation of each coroutine object, so after submitting a batch
of 21 URLs all 20 permits are free again, and `asyncio.gather` starts all 21
`download_url` coroutines at once — more than `CONCURRENT_DOWNLOADS = 20`
simultaneously in flight. -/
theorem claim_C2_code_bug :
    (download_batch_submit 21).avail = CONCURRENT_DOWNLOADS ∧
    gatherInFlight (download_batch_submit 21) = 21 ∧
    CONCURRENT_DOWNLOADS < gatherInFlight (download_batch_submit 21) := by decide

theorem pySplit_cons (c : Char) (rest : PyStr) :
    PyModel.pySplit (c :: rest) =
      if pySpace c then PyModel.pySplit rest
      else match PyModel.pySplit rest with
        | [] => [[c]]
        | w :: ws =>
          if rest ≠ [] ∧ pySpace rest.headI = false then (c :: w) :: ws else [c] :: w :: ws := by
  rw [PyModel.pySplit]

theorem pySplit_replicate_a (n : Nat) (h : 0 < n) :
    PyModel.pySplit (List.replicate n 'a') = [List.replicate n 'a'] := by
  induction n with
  | zero => exact absurd h (Nat.lt_irrefl 0)
  | succ k ih =>
    cases k with
    | zero => decide
    | succ j =>
      have hrest := ih (Nat.succ_pos j)
      have hne : List.replicate (j + 1) 'a' ≠ [] := by
        rw [List.replicate_succ]; exact List.cons_ne_nil _ _
      have hh : (List.replicate (j + 1) 'a').headI = 'a' := by
        rw [List.replicate_succ]; rfl
      rw [List.replicate_succ 'a' (j + 1), pySplit_cons, if_neg (by decide), hrest]
      simp only [hne, hh, ne_eq, not_false_eq_true, true_and]
      rw [if_pos (by decide)]

/-- Claim C9 is violated by the code: `' '.join(text.split())[:10000]` slices
10000 characters, not 10000 words. On a visible text that is one word of
10004 characters, the word-level truncation the claim (and the code's own
comment) describes keeps the text whole, but the code writes only its first
10000 characters. -/
theorem claim_C9_code_bug :
    (PyModel.pySplit c9input).length = 1 ∧
    wordLimitText c9input = c9input ∧
    (htmlSiblingText c9input).length = 10000 ∧
    htmlSiblingText c9input ≠ wordLimitText c9input := by
  have hs : PyModel.pySplit c9input = [c9input] := pySplit_replicate_a 10004 (by omega)
  have hclen : c9input.length = 10004 := by
    unfold c9input; rw [List.length_replicate]
  have ht : List.take 10000 [c9input] = [c9input] := List.take_of_length_le (by simp)
  refine ⟨by rw [hs]; simp, ?_, ?_, ?_⟩
  · unfold wordLimitText
    rw [hs, ht]
    rfl
  · unfold htmlSiblingText
    rw [hs]
    show (List.take 10000 c9input).length = 10000
    rw [List.length_take, hclen]
    omega
  · unfold htmlSiblingText wordLimitText
    rw [hs, ht]
    show List.take 10000 c9input ≠ c9input
    intro he
    have hlen := congrArg List.length he
    rw [List.length_take, hclen] at hlen
    omega

end DownloadUrls

namespace AddModels

open PyModel

theorem keyLe_iff (a b : ModelRow) :
    keyLe a b = true ↔ a.seq < b.seq ∨ (a.seq = b.seq ∧ a.modelIdx ≤ b.modelIdx) := by
  simp [keyLe, Nat.blt_eq, Nat.ble_eq]

theorem keyLe_trans (a b c : ModelRow) (hab : keyLe a b = true) (hbc : keyLe b c = true) :
    keyLe a c = true := by
  rw [keyLe_iff] at hab hbc ⊢
  omega

theorem keyLe_total (a b : ModelRow) : (keyLe a b || keyLe b a) = true := by
  rw [Bool.or_eq_true, keyLe_iff, keyLe_iff]
  omega

theorem keyLe_antisymmKeys {a b : ModelRow} (hab : keyLe a b = true) (hba : keyLe b a = true) :
    rowKey a = rowKey b := by
  rw [keyLe_iff] at hab hba
  unfold rowKey
  have h : a.seq = b.seq ∧ a.modelIdx = b.modelIdx := by omega
  rw [h.1, h.2]

/-- Claim C7: the rows written by `save_models` are sorted by
`(_seq, _model_idx)`, and any two delivery orders of the same result rows
(with pairwise-distinct keys) produce the same output. -/
theorem claim_C7 (rows rows' : List ModelRow) (hperm : rows.Perm rows')
    (hkeys : rows.Pairwise fun a b => rowKey a ≠ rowKey b) :
    List.Pairwise (fun a b => keyLe a b = true) (orderedRows rows) ∧
    save_models rows = save_models rows' := by
  have hsym : ∀ {x y : ModelRow}, rowKey x ≠ rowKey y → rowKey y ≠ rowKey x :=
    fun h he => h he.symm
  have hsorted : ∀ l : List ModelRow,
      List.Pairwise (fun a b => keyLe a b = true) (orderedRows l) :=
    fun l => List.sorted_mergeSort keyLe_trans keyLe_total l
  have hstrict : ∀ l : List ModelRow, l.Pairwise (fun a b => rowKey a ≠ rowKey b) →
      List.Pairwise keyLt (orderedRows l) := by
    intro l hl
    have h1 : (orderedRows l).Pairwise (fun a b => rowKey a ≠ rowKey b) :=
      (List.Perm.pairwise_iff hsym (List.mergeSort_perm l keyLe)).2 hl
    exact (hsorted l).and h1
  have hkeys' : rows'.Pairwise (fun a b => rowKey a ≠ rowKey b) :=
    (List.Perm.pairwise_iff hsym hperm).1 hkeys
  haveI : IsAntisymm ModelRow keyLt :=
    ⟨fun a b hab hba => absurd (keyLe_antisymmKeys hab.1 hba.1) hab.2⟩
  have hp : (orderedRows rows).Perm (orderedRows rows') :=
    ((List.mergeSort_perm rows keyLe).trans hperm).trans (List.mergeSort_perm rows' keyLe).symm
  have heq : orderedRows rows = orderedRows rows' :=
    List.eq_of_perm_of_sorted hp (hstrict rows hkeys) (hstrict rows' hkeys')
  exact ⟨hsorted rows, by unfold save_models; rw [heq]⟩

end AddModels

namespace AddModels

open PyModel

/-- Witness for `claim_C7`: the two completion orders of a two-row result
produce the same sorted output. -/
theorem claim_C7_witness :
    List.Pairwise (fun a b => keyLe a b = true) (orderedRows [c7row1, c7row2]) ∧
    save_models [c7row1, c7row2] = save_models [c7row2, c7row1] :=
  claim_C7 [c7row1, c7row2] [c7row2, c7row1] (List.Perm.swap c7row2 c7row1 []) (by decide)

/-- Witness for `claim_C8` at a concrete outcome exercising every rule. -/
theorem claim_C8_witness :
    (∀ m ∈ processAssetModels c8sample,
        m ≠ [] ∧ pyStrip m = m ∧ m ≠ String.toList "NONE" ∧
        ((cleanEntries (rawModels c8sample)).filter (fun x => lowStr x == lowStr m)).head? =
          some m) ∧
    List.Pairwise (fun a b => lowStr a ≠ lowStr b) (processAssetModels c8sample) ∧
    (processAssetModels c8sample).length ≤ MAX_MODELS ∧
    processAssetModels (ApiOutcome.apiError (String.toList "boom")) = [] :=
  claim_C8 c8sample (String.toList "boom")

end AddModels

namespace PyModel

theorem digitChar_toNat (d : Nat) (h : d < 10) : (digitChar d).toNat = 48 + d :=
  charToNat_ofNat (Or.inl (by omega))

theorem digitsVal_append (s : PyStr) (c : Char) :
    digitsVal (s ++ [c]) = 10 * digitsVal s + (c.toNat - 48) := by
  unfold digitsVal
  rw [List.foldl_append]
  rfl

theorem natDigitsAux_val (fuel : Nat) :
    ∀ n, n ≤ fuel → digitsVal (natDigitsAux fuel n) = n := by
  induction fuel with
  | zero =>
    intro n h
    have h0 : n = 0 := by omega
    subst h0
    rfl
  | succ f ih =>
    intro n h
    by_cases h0 : n = 0
    · subst h0; simp [natDigitsAux, digitsVal]
    · have hd : n / 10 < n := Nat.div_lt_self (by omega) (by omega)
      unfold natDigitsAux
      rw [if_neg h0, digitsVal_append, ih (n / 10) (by omega),
        digitChar_toNat _ (Nat.mod_lt n (by omega))]
      omega

theorem natReprVal (n : Nat) : digitsVal (natRepr n) = n := by
  unfold natRepr
  by_cases h : n = 0
  · subst h; rfl
  · rw [if_neg h]; exact natDigitsAux_val n n le_rfl

theorem natRepr_inj {m n : Nat} (h : natRepr m = natRepr n) : m = n := by
  have h2 := congrArg digitsVal h
  rwa [natReprVal, natReprVal] at h2

theorem natRepr_ne_nil (n : Nat) : natRepr n ≠ [] := by
  unfold natRepr
  by_cases h : n = 0
  · simp [h]
  · rw [if_neg h]
    cases n with
    | zero => exact absurd rfl h
    | succ k =>
      unfold natDigitsAux
      rw [if_neg h]
      simp

theorem splitext_append (p : PyStr) : (splitext p).1 ++ (splitext p).2 = p := by
  unfold splitext
  cases lastIdxOf '.' p with
  | none => simp
  | some d =>
    simp only []
    split
    · exact List.take_append_drop ..
    · simp

end PyModel

namespace DownloadUrls

open PyModel

theorem candidateName_length (orig : PyStr) (k : Nat) :
    (candidateName orig k).length = orig.length + 1 + (natRepr k).length := by
  unfold candidateName
  have h := congrArg List.length (splitext_append orig)
  rw [List.length_append] at h
  simp only [List.length_append, List.length_cons]
  omega

theorem candidateName_ne_orig (orig : PyStr) (k : Nat) : candidateName orig k ≠ orig := by
  intro h
  have hl := congrArg List.length h
  rw [candidateName_length] at hl
  have hpos : 0 < (natRepr k).length := List.length_pos.2 (natRepr_ne_nil k)
  omega

theorem candidateName_inj (orig : PyStr) {a b : Nat}
    (h : candidateName orig a = candidateName orig b) : a = b := by
  unfold candidateName at h
  have h1 := List.append_cancel_left h
  injection h1 with _ h2
  exact natRepr_inj (List.append_cancel_right h2)

theorem candSeq_inj (orig : PyStr) : Function.Injective (candSeq orig orig 1) := by
  intro i j h
  cases i with
  | zero =>
    cases j with
    | zero => rfl
    | succ j' => exact absurd h.symm (candidateName_ne_orig orig _)
  | succ i' =>
    cases j with
    | zero => exact absurd h (candidateName_ne_orig orig _)
    | succ j' =>
      have h2 := candidateName_inj orig h
      omega

theorem candSeq_shift (orig p : PyStr) (k j : Nat) :
    candSeq orig p k (j + 1) = candSeq orig (candidateName orig k) (k + 1) j := by
  cases j with
  | zero =>
    show candidateName orig (k + 0) = candidateName orig k
    rw [Nat.add_zero]
  | succ i =>
    show candidateName orig (k + (i + 1)) = candidateName orig ((k + 1) + i)
    congr 1
    omega

theorem resolveAux_succ (fs : List PyStr) (orig p : PyStr) (k fuel : Nat) :
    resolveAux fs orig p k (fuel + 1) =
      if p ∈ fs then resolveAux fs orig (candidateName orig k) (k + 1) fuel else p := rfl

/-- The collision loop returns a path that does not exist; if the original is
free it is returned unchanged, and otherwise the result is `name_m.ext` for
some counter `m ≥ 1` such that every earlier candidate exists. -/
theorem resolveAux_spec (fs : List PyStr) (orig : PyStr) :
    ∀ (fuel : Nat) (p : PyStr) (k : Nat),
      (∃ i, i < fuel ∧ candSeq orig p k i ∉ fs) →
      resolveAux fs orig p k fuel ∉ fs ∧
      (p ∉ fs → resolveAux fs orig p k fuel = p) ∧
      (p ∈ fs → ∃ m, k ≤ m ∧ resolveAux fs orig p k fuel = candidateName orig m ∧
        ∀ j, k ≤ j → j < m → candidateName orig j ∈ fs) := by
  intro fuel
  induction fuel with
  | zero =>
    rintro p k ⟨i, hi, _⟩
    omega
  | succ f ih =>
    rintro p k ⟨i, hi, hfree⟩
    by_cases hp : p ∈ fs
    · have hstep : resolveAux fs orig p k (f + 1) =
          resolveAux fs orig (candidateName orig k) (k + 1) f := by
        rw [resolveAux_succ, if_pos hp]
      have hi0 : i ≠ 0 := fun h0 => by
        subst h0
        exact hfree hp
      obtain ⟨i', rfl⟩ : ∃ i', i = i' + 1 := ⟨i - 1, by omega⟩
      have hih := ih (candidateName orig k) (k + 1)
        ⟨i', by omega, by rw [← candSeq_shift]; exact hfree⟩
      refine ⟨by rw [hstep]; exact hih.1, fun hnp => absurd hp hnp, fun _ => ?_⟩
      by_cases hck : candidateName orig k ∈ fs
      · obtain ⟨m, hkm, hr, hall⟩ := hih.2.2 hck
        refine ⟨m, by omega, by rw [hstep]; exact hr, ?_⟩
        intro j hkj hjm
        rcases Nat.eq_or_lt_of_le hkj with h | h
        · rw [← h]; exact hck
        · exact hall j (by omega) hjm
      · refine ⟨k, le_rfl, by rw [hstep]; exact hih.2.1 hck, by intro j h1 h2; omega⟩
    · have hstop : resolveAux fs orig p k (f + 1) = p := by
        rw [resolveAux_succ, if_neg hp]
      exact ⟨by rw [hstop]; exact hp, fun _ => hstop, fun h => absurd h hp⟩

/-- Claim C10: the destination chosen by the collision loop never exists
beforehand (so no previously downloaded file is overwritten); the original
path is kept when free, and otherwise the first free `name_k.ext`
(`k = 1, 2, ...`) is chosen. -/
theorem claim_C10 (fs : List PyStr) (orig : PyStr) :
    resolvePath fs orig ∉ fs ∧
    (orig ∉ fs → resolvePath fs orig = orig) ∧
    (orig ∈ fs → ∃ m, 1 ≤ m ∧ resolvePath fs orig = candidateName orig m ∧
      ∀ j, 1 ≤ j → j < m → candidateName orig j ∈ fs) := by
  have hfree : ∃ i, i < fs.length + 1 ∧ candSeq orig orig 1 i ∉ fs := by
    by_contra hc
    push_neg at hc
    have hnodup : ((List.range (fs.length + 1)).map (candSeq orig orig 1)).Nodup :=
      (List.nodup_range _).map (candSeq_inj orig)
    have hsub : ((List.range (fs.length + 1)).map (candSeq orig orig 1)).toFinset ⊆
        fs.toFinset := by
      intro x hx
      rw [List.mem_toFinset] at hx ⊢
      obtain ⟨i, hiR, rfl⟩ := List.mem_map.1 hx
      exact hc i (List.mem_range.1 hiR)
    have hcard1 : ((List.range (fs.length + 1)).map (candSeq orig orig 1)).toFinset.card =
        fs.length + 1 := by
      rw [List.toFinset_card_of_nodup hnodup, List.length_map, List.length_range]
    have hc2 := Finset.card_le_card hsub
    have hc3 := List.toFinset_card_le fs
    omega
  have hspec := resolveAux_spec fs orig (fs.length + 1) orig 1 hfree
  exact ⟨hspec.1, hspec.2.1, hspec.2.2⟩

/-- Witness for `claim_C10` on a concrete filesystem where both `a.txt` and
`a_1.txt` already exist. -/
theorem claim_C10_witness :
    resolvePath c10fs c10orig ∉ c10fs ∧
    (c10orig ∉ c10fs → resolvePath c10fs c10orig = c10orig) ∧
    (c10orig ∈ c10fs → ∃ m, 1 ≤ m ∧ resolvePath c10fs c10orig = candidateName c10orig m ∧
      ∀ j, 1 ≤ j → j < m → candidateName c10orig j ∈ c10fs) :=
  claim_C10 c10fs c10orig

end DownloadUrls

namespace PyModel

theorem charEqIffToNat {a b : Char} : a = b ↔ a.toNat = b.toNat :=
  ⟨fun h => h ▸ rfl, fun h => Char.ext (UInt32.ext h)⟩

theorem toUpper_toNat (c : Char) :
    (Char.toUpper c).toNat =
      if c.toNat ≥ 97 ∧ c.toNat ≤ 122 then c.toNat - 32 else c.toNat := by
  rw [toUpper_def]
  split
  · rename_i h
    exact charToNat_ofNat (Or.inl (by omega))
  · rfl

theorem word_not_space {c : Char} (h : pyWord c = true) : pySpace c = false := by
  unfold pyWord at h
  unfold pySpace
  simp only [Bool.or_eq_true, Bool.and_eq_true, decide_eq_true_eq] at h
  simp only [Bool.or_eq_false_iff, decide_eq_false_iff_not]
  omega

theorem word_char_codes {c : Char} (h : pyWord c = true) : c ≠ ' ' ∧ c ≠ '-' := by
  unfold pyWord at h
  simp only [Bool.or_eq_true, Bool.and_eq_true, decide_eq_true_eq] at h
  have h32 : (' ' : Char).toNat = 32 := by decide
  have h45 : ('-' : Char).toNat = 45 := by decide
  constructor <;> intro hc <;> rw [charEqIffToNat] at hc
  · rw [h32] at hc; omega
  · rw [h45] at hc; omega

theorem toUpper_fix_of_space {c : Char} (h : pySpace c = true) : Char.toUpper c = c := by
  rw [toUpper_def, if_neg]
  unfold pySpace at h
  simp only [Bool.or_eq_true, decide_eq_true_eq] at h
  omega

theorem toUpper_ne_hyphen {c : Char} (h : c ≠ '-') : Char.toUpper c ≠ '-' := by
  intro hc
  rw [charEqIffToNat, toUpper_toNat] at hc
  have h45 : ('-' : Char).toNat = 45 := by decide
  rw [h45] at hc
  apply h
  rw [charEqIffToNat, h45]
  revert hc
  split <;> omega

theorem memDropWhile {α : Type} {p : α → Bool} {c : α} :
    ∀ {l : List α}, c ∈ l → p c = false → c ∈ l.dropWhile p := by
  intro l
  induction l with
  | nil => intro h _; simp at h
  | cons a t ih =>
    intro hc hp
    rw [List.dropWhile_cons]
    split
    · rename_i hpa
      rcases List.mem_cons.1 hc with rfl | h
      · rw [hp] at hpa; exact absurd hpa (by simp)
      · exact ih h hp
    · exact hc

theorem memStripChars {p : Char → Bool} {c : Char} {s : PyStr}
    (hc : c ∈ s) (hp : p c = false) : c ∈ stripChars p s := by
  unfold stripChars
  rw [List.mem_reverse]
  apply memDropWhile _ hp
  rw [List.mem_reverse]
  exact memDropWhile hc hp

theorem stripCharsInfix (p : Char → Bool) (s : PyStr) : stripChars p s <:+: s := by
  unfold stripChars
  have h1 : ((s.dropWhile p).reverse.dropWhile p).reverse <+: s.dropWhile p := by
    obtain ⟨t, ht⟩ := List.dropWhile_suffix (l := (s.dropWhile p).reverse) p
    refine ⟨t.reverse, ?_⟩
    have h2 := congrArg List.reverse ht
    rw [List.reverse_append, List.reverse_reverse] at h2
    exact h2
  exact h1.isInfix.trans (List.dropWhile_suffix p).isInfix

theorem toUpper_fix_of_mem_upStr {c : Char} {s : PyStr} (h : c ∈ upStr s) :
    Char.toUpper c = c := by
  obtain ⟨d, _, rfl⟩ := List.mem_map.1 h
  exact toUpper_idem d

theorem pySplit_cons_space {c : Char} (rest : PyStr) (hc : pySpace c = true) :
    pySplit (c :: rest) = pySplit rest := by
  rw [DownloadUrls.pySplit_cons, if_pos hc]

theorem pySplit_cons_nil {c : Char} {rest : PyStr} (hc : pySpace c = false)
    (hrec : pySplit rest = []) : pySplit (c :: rest) = [[c]] := by
  rw [DownloadUrls.pySplit_cons, if_neg (by simp [hc]), hrec]

theorem pySplit_cons_cons {c : Char} {rest : PyStr} {w0 : PyStr} {ws : List PyStr}
    (hc : pySpace c = false) (hrec : pySplit rest = w0 :: ws) :
    pySplit (c :: rest) =
      if rest ≠ [] ∧ pySpace rest.headI = false then (c :: w0) :: ws
      else [c] :: w0 :: ws := by
  rw [DownloadUrls.pySplit_cons, if_neg (by simp [hc]), hrec]

/-- Every piece produced by `pySplit` is non-empty, and each of its characters
is a non-whitespace character of the input. -/
theorem pySplit_sound :
    ∀ (s : PyStr), ∀ w ∈ pySplit s, w ≠ [] ∧ ∀ c ∈ w, c ∈ s ∧ pySpace c = false := by
  intro s
  induction s with
  | nil => intro w hw; simp [pySplit] at hw
  | cons a rest ih =>
    intro w hw
    by_cases ha : pySpace a = true
    · rw [pySplit_cons_space rest ha] at hw
      obtain ⟨hne, hc⟩ := ih w hw
      exact ⟨hne, fun c hcw => ⟨List.mem_cons_of_mem _ (hc c hcw).1, (hc c hcw).2⟩⟩
    · have ha' : pySpace a = false := by simpa using ha
      cases hrec : pySplit rest with
      | nil =>
        rw [pySplit_cons_nil ha' hrec] at hw
        simp only [List.mem_singleton] at hw
        subst hw
        refine ⟨List.cons_ne_nil _ _, fun c hcw => ?_⟩
        rw [List.mem_singleton] at hcw
        subst hcw
        exact ⟨List.mem_cons_self .., ha'⟩
      | cons w0 ws =>
        rw [pySplit_cons_cons ha' hrec] at hw
        have hlift : ∀ v ∈ w0 :: ws, v ≠ [] ∧ ∀ c ∈ v, c ∈ a :: rest ∧ pySpace c = false := by
          intro v hv
          obtain ⟨hvne, hvc⟩ := ih v (hrec ▸ hv)
          exact ⟨hvne, fun c hcv => ⟨List.mem_cons_of_mem _ (hvc c hcv).1, (hvc c hcv).2⟩⟩
        split at hw
        · rcases List.mem_cons.1 hw with rfl | h
          · refine ⟨List.cons_ne_nil _ _, fun c hcw => ?_⟩
            rcases List.mem_cons.1 hcw with rfl | h2
            · exact ⟨List.mem_cons_self .., ha'⟩
            · exact (hlift w0 (List.mem_cons_self ..)).2 c h2
          · exact hlift w (List.mem_cons_of_mem _ h)
        · rcases List.mem_cons.1 hw with rfl | h
          · refine ⟨List.cons_ne_nil _ _, fun c hcw => ?_⟩
            rw [List.mem_singleton] at hcw
            subst hcw
            exact ⟨List.mem_cons_self .., ha'⟩
          · exact hlift w h

end PyModel

namespace CheckPdf

open PyModel

theorem upStr_hyphensToSpaces (s : PyStr) :
    upStr (hyphensToSpaces s) = hyphensToSpaces (upStr s) := by
  unfold upStr hyphensToSpaces
  rw [List.map_map, List.map_map]
  apply List.map_congr_left
  intro c _
  show Char.toUpper (if c = '-' then ' ' else c) =
    (if Char.toUpper c = '-' then ' ' else Char.toUpper c)
  by_cases hc : c = '-'
  · subst hc
    rw [if_pos rfl]
    have h1 : Char.toUpper ' ' = ' ' := by decide
    have h2 : Char.toUpper '-' = '-' := by decide
    rw [h1, h2, if_pos rfl]
  · rw [if_neg hc, if_neg (toUpper_ne_hyphen hc)]

theorem check_true_of_rule1 (model content : PyStr) (hm : model ≠ []) (hc : content ≠ [])
    (h : rule1 model content = true) : check_model_in_content model content = true := by
  have hg : (model.isEmpty || content.isEmpty) = false := by
    cases model with
    | nil => exact absurd rfl hm
    | cons a t =>
      cases content with
      | nil => exact absurd rfl hc
      | cons b u => rfl
  unfold check_model_in_content
  rw [if_neg (by rw [hg]; exact Bool.false_ne_true), h]
  rfl

theorem modelNormalized_infix_upStr (model : PyStr) :
    modelNormalized model <:+: upStr model :=
  List.IsInfix.map Char.toUpper (stripCharsInfix pySpace model)

theorem infix_upStr_content {X content : PyStr}
    (h : occursIn X content = true) (hfix : upStr X = X) : X <:+: upStr content := by
  have h2 : upStr X <:+: upStr content :=
    List.IsInfix.map Char.toUpper ((occursIn_iff X content).1 h)
  rwa [hfix] at h2

theorem occursInFalseOfBad {p T : PyStr} {c : Char} (hcp : c ∈ p) (hnot : c ∉ T) :
    occursIn p T = false := by
  by_contra h
  rw [Bool.not_eq_false] at h
  exact hnot (((occursIn_iff p T).1 h).subset hcp)

theorem ciAtFalse {pat s : PyStr} {c : Char} (hc : c ∈ pat) (hfix : Char.toUpper c = c)
    (hnot : c ∉ upStr s) : ∀ i, ciAt pat s i = false := by
  intro i
  by_contra hT
  rw [Bool.not_eq_false] at hT
  unfold ciAt at hT
  rw [Bool.and_eq_true, decide_eq_true_eq, List.all_eq_true] at hT
  obtain ⟨hbound, hall⟩ := hT
  obtain ⟨j, hj, hpj⟩ := List.mem_iff_getElem.1 hc
  have h1 := hall j (List.mem_range.2 hj)
  rw [List.getD_eq_getElem pat ' ' hj, hpj] at h1
  have hij : i + j < s.length := by omega
  rw [List.getD_eq_getElem s ' ' hij] at h1
  unfold ciEq at h1
  rw [beq_iff_eq, hfix] at h1
  apply hnot
  rw [h1]
  exact List.mem_map_of_mem Char.toUpper (List.getElem_mem hij)

theorem dotStarFalse {kw s : PyStr} {c : Char} (hc : c ∈ kw) (hfix : Char.toUpper c = c)
    (hnot : c ∉ upStr s) (a : PyStr) :
    dotStarMatch kw a s = false ∧ dotStarMatch a kw s = false := by
  have hci := ciAtFalse hc hfix hnot
  constructor
  · unfold dotStarMatch
    rw [List.any_eq_false]
    intro i _
    have hinner : ((List.range (s.length + 1)).any (fun j =>
        ciAt kw s i && ciAt a s j && decide (i + kw.length ≤ j) &&
        ((s.drop (i + kw.length)).take (j - (i + kw.length))).all (fun c => c != '\n'))) =
        false := by
      rw [List.any_eq_false]
      intro j _
      simp [hci i]
    simp [hinner]
  · unfold dotStarMatch
    rw [List.any_eq_false]
    intro i _
    have hinner : ((List.range (s.length + 1)).any (fun j =>
        ciAt a s i && ciAt kw s j && decide (i + a.length ≤ j) &&
        ((s.drop (i + a.length)).take (j - (i + a.length))).all (fun c => c != '\n'))) =
        false := by
      rw [List.any_eq_false]
      intro j _
      simp [hci j]
    simp [hinner]

theorem wordPieceBad (model content : PyStr)
    (hDisj : ∀ c ∈ upStr model, pyWord c = true → c ∉ upStr content) :
    ∀ w ∈ wordsOf model, w ≠ [] ∧ ∃ c ∈ w, Char.toUpper c = c ∧ c ∉ upStr content := by
  intro w hw
  obtain ⟨hne, hchars⟩ := pySplit_sound (modelClean model) w hw
  refine ⟨hne, ?_⟩
  obtain ⟨c, hcw⟩ := List.exists_mem_of_ne_nil w hne
  obtain ⟨hcClean, hcNS⟩ := hchars c hcw
  have hcClean2 : c ∈ (modelNormalized model).filter (fun c => pyWord c || pySpace c) := hcClean
  have hcNorm : c ∈ modelNormalized model := (List.mem_filter.1 hcClean2).1
  have hcPred := (List.mem_filter.1 hcClean2).2
  have hcWord : pyWord c = true := by
    rw [Bool.or_eq_true] at hcPred
    rcases hcPred with h | h
    · exact h
    · rw [hcNS] at h
      exact absurd h Bool.false_ne_true
  have hcUp : c ∈ upStr model := by
    obtain ⟨d, hd, rfl⟩ := List.mem_map.1 hcNorm
    exact List.mem_map_of_mem _ (DownloadUrls.stripChars_subset _ _ hd)
  exact ⟨c, hcw, toUpper_fix_of_mem_upStr hcUp, hDisj c hcUp hcWord⟩

theorem rule1False (model content : PyStr) {w : Char}
    (hw1 : w ∈ modelNormalized model) (hwWord : pyWord w = true)
    (hnot : w ∉ upStr content) : rule1 model content = false := by
  have hcodes := word_char_codes hwWord
  unfold rule1
  rw [List.any_eq_false]
  intro p hp
  have hwp : w ∈ p := by
    unfold patternsOf at hp
    rcases List.mem_cons.1 hp with rfl | hp
    · exact hw1
    rcases List.mem_cons.1 hp with rfl | hp
    · show w ∈ (modelNormalized model).filter (fun c => pyWord c || pySpace c)
      exact List.mem_filter.2 ⟨hw1, by rw [hwWord]; rfl⟩
    rcases List.mem_cons.1 hp with rfl | hp
    · show w ∈ (modelNormalized model).filter (fun c => c != ' ')
      refine List.mem_filter.2 ⟨hw1, ?_⟩
      simp [bne_iff_ne, hcodes.1]
    rcases List.mem_cons.1 hp with rfl | hp
    · exact List.mem_map.2 ⟨w, hw1, by rw [if_neg hcodes.1]⟩
    rcases List.mem_cons.1 hp with rfl | hp
    · exact List.mem_map.2 ⟨w, hw1, by rw [if_neg hcodes.2]⟩
    · simp at hp
  simp [occursInFalseOfBad hwp hnot]

theorem rule2False (model content : PyStr)
    (hbad : ∀ w ∈ wordsOf model, w ≠ [] ∧ ∃ c ∈ w, Char.toUpper c = c ∧ c ∉ upStr content) :
    rule2 model content = false := by
  unfold rule2
  cases hwords : wordsOf model with
  | nil => simp
  | cons w0 ws =>
    obtain ⟨hne0, c0, hc0w, _, hc0not⟩ := hbad w0 (hwords ▸ List.mem_cons_self ..)
    have hocc0 : occursIn w0 (upStr content) = false := occursInFalseOfBad hc0w hc0not
    have hall : ((w0 :: ws).all fun w => w.isEmpty || occursIn w (upStr content)) = false := by
      rw [List.all_eq_false]
      refine ⟨w0, List.mem_cons_self .., ?_⟩
      simp [hocc0, List.isEmpty_iff, hne0]
    rw [hall]
    simp

theorem rule3False (model content : PyStr)
    (hbad : ∀ w ∈ wordsOf model, w ≠ [] ∧ ∃ c ∈ w, Char.toUpper c = c ∧ c ∉ upStr content) :
    rule3 model content = false := by
  unfold rule3
  have hany : ((digitRuns (modelNormalized model)).any fun num =>
      !(keywordsOf model).isEmpty &&
      ((keywordsOf model).any fun kw =>
        dotStarMatch kw num (upStr content) || dotStarMatch num kw (upStr content))) =
      false := by
    rw [List.any_eq_false]
    intro num _
    have hinner : ((keywordsOf model).any fun kw =>
        dotStarMatch kw num (upStr content) || dotStarMatch num kw (upStr content)) =
        false := by
      rw [List.any_eq_false]
      intro kw hkw
      have hkw2 : kw ∈ (wordsOf model).filter (fun w => !w.isEmpty && !pyIsDigit w) := hkw
      have hkwWords : kw ∈ wordsOf model := (List.mem_filter.1 hkw2).1
      obtain ⟨_, c1, hc1kw, hfix1, hc1not⟩ := hbad kw hkwWords
      have hc1not2 : c1 ∉ upStr (upStr content) := by
        rw [upStr_idem]
        exact hc1not
      have hd := dotStarFalse hc1kw hfix1 hc1not2 num
      simp [hd.1, hd.2]
    simp [hinner]
  rw [hany]
  simp

theorem rule4False (model content : PyStr) {w : Char}
    (hw1 : w ∈ modelNormalized model) (hwWord : pyWord w = true)
    (hfix : Char.toUpper w = w) (hnot : w ∉ upStr content) :
    rule4 model content = false := by
  unfold rule4 finalRegexSearch
  rw [List.any_eq_false]
  intro i _
  have hwL : w ∈ escapeSpaces (modelNormalized model) :=
    List.mem_flatMap.2 ⟨w, hw1, by
      rw [if_neg (word_char_codes hwWord).1]
      exact List.mem_singleton.2 rfl⟩
  simp [ciAtFalse hwL hfix hnot i]

end CheckPdf

namespace CheckPdf

open PyModel

/-- Claim C5 as stated is false at a degenerate input: the whitespace-only
model `" "` is a non-empty string and the document `" "` contains its exact
uppercase form verbatim, yet `check_model_in_content` returns `False`
(normalization strips the model to the empty string and every rule skips
empty patterns). -/
theorem claim_C5_counterexample :
    String.toList " " ≠ [] ∧
    occursIn (upStr (String.toList " ")) (String.toList " ") = true ∧
    check_model_in_content (String.toList " ") (String.toList " ") = false := by
  refine ⟨by decide, by decide, by decide⟩

/-- Claim C5 (amended to models that are not whitespace-only): (a) a document
containing the exact uppercase model verbatim matches; (b) a document
containing the model with hyphens replaced by spaces matches; (c) a document
sharing no word character (letter, digit or underscore, case-insensitively)
with the model does not match. -/
theorem claim_C5_amended (model content : PyStr) :
    (pyStrip model ≠ [] → occursIn (upStr model) content = true →
      check_model_in_content model content = true) ∧
    (pyStrip model ≠ [] → occursIn (hyphensToSpaces (upStr model)) content = true →
      check_model_in_content model content = true) ∧
    ((∃ c ∈ upStr model, pyWord c = true) →
      (∀ c ∈ upStr model, pyWord c = true → c ∉ upStr content) →
      check_model_in_content model content = false) := by
  refine ⟨?_, ?_, ?_⟩
  · intro hstrip hocc
    have hm : model ≠ [] := fun h => hstrip (by rw [h]; rfl)
    have h2 : upStr model <:+: upStr content := infix_upStr_content hocc (upStr_idem model)
    have hchain : modelNormalized model <:+: upStr content :=
      (modelNormalized_infix_upStr model).trans h2
    have hcont : content ≠ [] := by
      intro hnil
      subst hnil
      have h4 : upStr model <:+: ([] : List Char) := h2
      rw [List.infix_nil] at h4
      unfold upStr at h4
      rw [List.map_eq_nil_iff] at h4
      exact hm h4
    have hmn : modelNormalized model ≠ [] := by
      unfold modelNormalized upStr
      rw [Ne, List.map_eq_nil_iff]
      exact hstrip
    apply check_true_of_rule1 model content hm hcont
    unfold rule1
    rw [List.any_eq_true]
    refine ⟨modelNormalized model, by unfold patternsOf; exact List.mem_cons_self .., ?_⟩
    rw [Bool.and_eq_true]
    exact ⟨by simp [List.isEmpty_iff, hmn], (occursIn_iff ..).2 hchain⟩
  · intro hstrip hocc
    have hm : model ≠ [] := fun h => hstrip (by rw [h]; rfl)
    have hfixB : upStr (hyphensToSpaces (upStr model)) = hyphensToSpaces (upStr model) := by
      rw [upStr_hyphensToSpaces, upStr_idem]
    have h2 : hyphensToSpaces (upStr model) <:+: upStr content := infix_upStr_content hocc hfixB
    have hchain : hyphensToSpaces (modelNormalized model) <:+: upStr content :=
      (List.IsInfix.map _ (modelNormalized_infix_upStr model)).trans h2
    have hcont : content ≠ [] := by
      intro hnil
      subst hnil
      have h4 : hyphensToSpaces (upStr model) <:+: ([] : List Char) := h2
      rw [List.infix_nil] at h4
      unfold hyphensToSpaces at h4
      rw [List.map_eq_nil_iff] at h4
      unfold upStr at h4
      rw [List.map_eq_nil_iff] at h4
      exact hm h4
    have hmn5 : hyphensToSpaces (modelNormalized model) ≠ [] := by
      unfold hyphensToSpaces modelNormalized upStr
      rw [Ne, List.map_eq_nil_iff, List.map_eq_nil_iff]
      exact hstrip
    apply check_true_of_rule1 model content hm hcont
    unfold rule1
    rw [List.any_eq_true]
    refine ⟨hyphensToSpaces (modelNormalized model), by unfold patternsOf; simp, ?_⟩
    rw [Bool.and_eq_true]
    exact ⟨by simp [List.isEmpty_iff, hmn5], (occursIn_iff ..).2 hchain⟩
  · rintro ⟨w, hwMem, hwWord⟩ hDisj
    by_cases hcE : content = []
    · subst hcE
      unfold check_model_in_content
      rw [if_pos (by simp)]
    · have hm : model ≠ [] := by
        intro h
        subst h
        simp [upStr] at hwMem
      have hwFix : Char.toUpper w = w := toUpper_fix_of_mem_upStr hwMem
      have hwNS : pySpace w = false := word_not_space hwWord
      have hw1 : w ∈ modelNormalized model := by
        obtain ⟨d, hd, rfl⟩ := List.mem_map.1 hwMem
        have hds : pySpace d = false := by
          by_contra hcs
          rw [Bool.not_eq_false] at hcs
          rw [toUpper_fix_of_space hcs] at hwNS
          rw [hwNS] at hcs
          exact Bool.false_ne_true hcs
        exact List.mem_map_of_mem _ (memStripChars hd hds)
      have hwNot : w ∉ upStr content := hDisj w hwMem hwWord
      have hbad : ∀ v ∈ wordsOf model, v ≠ [] ∧ ∃ c ∈ v, Char.toUpper c = c ∧ c ∉ upStr content :=
        wordPieceBad model content hDisj
      have hr1 := rule1False model content hw1 hwWord hwNot
      have hr2 := rule2False model content hbad
      have hr3 := rule3False model content hbad
      have hr4 := rule4False model content hw1 hwWord hwFix hwNot
      have hg : (model.isEmpty || content.isEmpty) = false := by
        cases model with
        | nil => exact absurd rfl hm
        | cons a t =>
          cases content with
          | nil => exact absurd rfl hcE
          | cons b u => rfl
      unfold check_model_in_content
      rw [if_neg (by rw [hg]; exact Bool.false_ne_true), hr1, hr2, hr3, hr4]
      rfl

/-- Witness for `claim_C5_amended`: each of the three parts at a concrete
model and document. -/
theorem claim_C5_witness :
    (pyStrip (String.toList "X-1") ≠ [] ∧
      occursIn (upStr (String.toList "X-1")) (String.toList "MANUAL FOR X-1 PUMP") = true ∧
      check_model_in_content (String.toList "X-1") (String.toList "MANUAL FOR X-1 PUMP") =
        true) ∧
    (occursIn (hyphensToSpaces (upStr (String.toList "X-1"))) (String.toList "SEE X 1 DATA") =
        true ∧
      check_model_in_content (String.toList "X-1") (String.toList "SEE X 1 DATA") = true) ∧
    ((∃ c ∈ upStr (String.toList "X-1"), pyWord c = true) ∧
      check_model_in_content (String.toList "X-1") (String.toList "PUMP CATALOG") = false) :=
  ⟨⟨by decide, by decide,
    (claim_C5_amended (String.toList "X-1") (String.toList "MANUAL FOR X-1 PUMP")).1
      (by decide) (by decide)⟩,
   ⟨by decide,
    (claim_C5_amended (String.toList "X-1") (String.toList "SEE X 1 DATA")).2.1
      (by decide) (by decide)⟩,
   ⟨by decide,
    (claim_C5_amended (String.toList "X-1") (String.toList "PUMP CATALOG")).2.2
      (by decide) (by decide)⟩⟩

end CheckPdf

namespace DownloadUrls

open PyModel
theorem download_url_run {env : DlEnv} {url : PyStr} {row : RowData} {st : DlState}
    (hskip : isSuccessAt st.progress env.md5hex = false) :
    download_url env url row st = downloadUrlFetch env url row st env.md5hex := by
  unfold isSuccessAt at hskip
  simp only [download_url]
  cases hl : pyDictGet st.progress env.md5hex with
  | none => rfl
  | some r =>
    rw [hl] at hskip
    simp only [decide_eq_false_iff_not] at hskip
    show (if r.status = RStatus.success then (r, st)
      else downloadUrlFetch env url row st env.md5hex) = _
    rw [if_neg hskip]

/-- Every per-item error of `download_url` (other than the silently ignored
HTML sibling-extraction failure) yields a normal return whose result has
error status, a non-empty message, and an entry appended to the error log. -/
theorem downloadErrRecorded (env : DlEnv) (url : PyStr) (row : RowData) (st : DlState)
    (hskip : isSuccessAt st.progress env.md5hex = false) (herr : envError env = true) :
    (download_url env url row st).1.status = RStatus.error ∧
    ∃ m, (download_url env url row st).1.errMsg = some m ∧ m ≠ [] ∧
      (download_url env url row st).1 ∈ (download_url env url row st).2.errors := by
  rw [download_url_run hskip]
  obtain ⟨md5, ppath, outcome, wexn, hok⟩ := env
  cases outcome with
  | timeout =>
    exact ⟨rfl, String.toList "Request timeout", rfl, by decide,
      List.mem_append_right _ (List.mem_singleton_self _)⟩
  | clientError m =>
    refine ⟨rfl, String.toList "Client error: " ++ m.take 100, rfl, ?_,
      List.mem_append_right _ (List.mem_singleton_self _)⟩
    intro h
    rw [List.append_eq_nil] at h
    exact absurd h.1 (by decide)
  | otherExn m =>
    refine ⟨rfl, String.toList "Error: " ++ m.take 100, rfl, ?_,
      List.mem_append_right _ (List.mem_singleton_self _)⟩
    intro h
    rw [List.append_eq_nil] at h
    exact absurd h.1 (by decide)
  | ok status ct0 clen body =>
    by_cases h200 : status = 200
    · subst h200
      cases clen with
      | some n =>
        simp only [downloadUrlFetch]
        rw [if_neg (fun hc => hc rfl)]
        by_cases hn : n > MAX_FILE_SIZE
        · rw [if_pos hn]
          refine ⟨rfl,
            String.toList "File too large: " ++ natRepr n ++ String.toList " bytes",
            rfl, ?_, List.mem_append_right _ (List.mem_singleton_self _)⟩
          intro h
          rw [List.append_eq_nil, List.append_eq_nil] at h
          exact absurd h.1.1 (by decide)
        · rw [if_neg hn]
          by_cases hb : body.length > MAX_FILE_SIZE
          · simp only [downloadUrlBody]
            rw [if_pos hb]
            refine ⟨rfl,
              String.toList "File too large: " ++ natRepr body.length ++
                String.toList " bytes",
              rfl, ?_, List.mem_append_right _ (List.mem_singleton_self _)⟩
            intro h
            rw [List.append_eq_nil, List.append_eq_nil] at h
            exact absurd h.1.1 (by decide)
          · cases wexn with
            | none => simp [envError, hn, hb] at herr
            | some m =>
              simp only [downloadUrlBody]
              rw [if_neg hb]
              refine ⟨rfl, String.toList "Error: " ++ m.take 100, rfl, ?_,
                List.mem_append_right _ (List.mem_singleton_self _)⟩
              intro h
              rw [List.append_eq_nil] at h
              exact absurd h.1 (by decide)
      | none =>
        simp only [downloadUrlFetch]
        rw [if_neg (fun hc => hc rfl)]
        by_cases hb : body.length > MAX_FILE_SIZE
        · simp only [downloadUrlBody]
          rw [if_pos hb]
          refine ⟨rfl,
            String.toList "File too large: " ++ natRepr body.length ++
              String.toList " bytes",
            rfl, ?_, List.mem_append_right _ (List.mem_singleton_self _)⟩
          intro h
          rw [List.append_eq_nil, List.append_eq_nil] at h
          exact absurd h.1.1 (by decide)
        · cases wexn with
          | none => simp [envError, hb] at herr
          | some m =>
            simp only [downloadUrlBody]
            rw [if_neg hb]
            refine ⟨rfl, String.toList "Error: " ++ m.take 100, rfl, ?_,
              List.mem_append_right _ (List.mem_singleton_self _)⟩
            intro h
            rw [List.append_eq_nil] at h
            exact absurd h.1 (by decide)
    · simp only [downloadUrlFetch]
      rw [if_pos h200]
      refine ⟨rfl, String.toList "HTTP " ++ natRepr status, rfl, ?_,
        List.mem_append_right _ (List.mem_singleton_self _)⟩
      intro h
      rw [List.append_eq_nil] at h
      exact absurd h.1 (by decide)

/-- C3 counterexample: an HTML sibling-text extraction failure is NOT
recorded anywhere: with `c3env` (a 200 text/html response whose
text-extraction step fails) `download_url` returns a success result with no
error message, appends nothing to the error log, and reports no text
sibling, so this per-item error leaves no trace in the ProgressRecord. -/
theorem claim_C3_counterexample :
    c3env.htmlExtractOk = false ∧
    (download_url c3env (String.toList "http://x/page.html") c3row c3state).1.status =
      RStatus.success ∧
    (download_url c3env (String.toList "http://x/page.html") c3row c3state).1.errMsg = none ∧
    (download_url c3env (String.toList "http://x/page.html") c3row c3state).2.errors = [] ∧
    (download_url c3env (String.toList "http://x/page.html") c3row c3state).1.textPath =
      none :=
  ⟨rfl, rfl, rfl, rfl, rfl⟩

/-- C3, amended: every per-item error EXCEPT an HTML sibling-text extraction
failure is caught at the item boundary. For `download_url`: any transport
error, timeout, non-200 status, oversize content or write failure produces a
normal return whose result has error status and a non-empty human-readable
message and is appended to the error log; processing a batch sequentially
always yields one result per item (no error propagates). For
`process_single_row`: any extraction failure or handler exception becomes an
output cell of the form `Error: <message>`. The HTML sibling extraction
failure of `claim_C3_counterexample` is silently swallowed by a bare
`except: pass` and excluded here. -/
theorem claim_C3_amended :
    (∀ env url row st, isSuccessAt st.progress env.md5hex = false →
      envError env = true →
      (download_url env url row st).1.status = RStatus.error ∧
      ∃ m, (download_url env url row st).1.errMsg = some m ∧ m ≠ [] ∧
        (download_url env url row st).1 ∈ (download_url env url row st).2.errors) ∧
    (∀ envOf items st, (download_sequential envOf items st).1.length = items.length) ∧
    (∀ o model, CheckPdf.extractError o = true →
      ∃ m, CheckPdf.process_single_row o model = String.toList "Error: " ++ m) := by
  refine ⟨downloadErrRecorded, ?_, ?_⟩
  · intro envOf items
    induction items with
    | nil => intro st; rfl
    | cons hd tl ih =>
      intro st
      obtain ⟨url, row⟩ := hd
      simp only [download_sequential, List.length_cons]
      rw [ih]
  · intro o model hext
    cases o with
    | exn m => exact ⟨m, rfl⟩
    | res text msg =>
      simp only [CheckPdf.extractError, List.isEmpty_iff] at hext
      subst hext
      cases msg with
      | none => exact ⟨String.toList "Could not extract text", rfl⟩
      | some m =>
        by_cases hm : m.isEmpty
        · refine ⟨String.toList "Could not extract text", ?_⟩
          simp [CheckPdf.process_single_row, hm]
        · refine ⟨m, ?_⟩
          simp [CheckPdf.process_single_row, hm]

/-- C3 witness: the amended theorem at concrete inputs (a timed-out item; an
extraction exception). -/
theorem claim_C3_witness :
    (download_url
      { md5hex := String.toList "k", parsedPath := [], outcome := FetchOutcome.timeout,
        writeExn := none, htmlExtractOk := true }
      (String.toList "http://x/a.pdf") c3row c3state).1.status = RStatus.error ∧
    ∃ m, CheckPdf.process_single_row (CheckPdf.ExtractOutcome.exn (String.toList "boom")) [] =
      String.toList "Error: " ++ m :=
  ⟨(claim_C3_amended.1
      { md5hex := String.toList "k", parsedPath := [], outcome := FetchOutcome.timeout,
        writeExn := none, htmlExtractOk := true }
      (String.toList "http://x/a.pdf") c3row c3state (by decide) (by decide)).1,
   claim_C3_amended.2.2 (CheckPdf.ExtractOutcome.exn (String.toList "boom")) [] (by decide)⟩

end DownloadUrls

namespace DownloadUrls

open PyModel

/-- C4: the oversize guard. If the declared Content-Length of a 200 response
exceeds MAX_FILE_SIZE, or the declared length passes (or is absent) but the
body actually read is oversize, `download_url` returns an error result whose
message is `File too large: <n> bytes`, and the filesystem is unchanged (no
file is written for that item). -/
theorem claim_C4 (env : DlEnv) (url : PyStr) (row : RowData) (st : DlState)
    (hskip : isSuccessAt st.progress env.md5hex = false) :
    (∀ status ct n body, env.outcome = FetchOutcome.ok status ct (some n) body →
      status = 200 → n > MAX_FILE_SIZE →
      (download_url env url row st).1.status = RStatus.error ∧
      (download_url env url row st).1.errMsg =
        some (String.toList "File too large: " ++ natRepr n ++ String.toList " bytes") ∧
      (download_url env url row st).2.fs = st.fs) ∧
    (∀ status ct clen body, env.outcome = FetchOutcome.ok status ct clen body →
      status = 200 → (∀ n, clen = some n → ¬ n > MAX_FILE_SIZE) →
      body.length > MAX_FILE_SIZE →
      (download_url env url row st).1.status = RStatus.error ∧
      (download_url env url row st).1.errMsg =
        some (String.toList "File too large: " ++ natRepr body.length ++
          String.toList " bytes") ∧
      (download_url env url row st).2.fs = st.fs) := by
  rw [download_url_run hskip]
  obtain ⟨md5, ppath, outcome, wexn, hok⟩ := env
  constructor
  · intro status ct n body houtcome h200 hn
    subst houtcome
    subst h200
    simp only [downloadUrlFetch]
    rw [if_neg (fun hc => hc rfl), if_pos hn]
    exact ⟨rfl, rfl, rfl⟩
  · intro status ct clen body houtcome h200 hnone hbody
    subst houtcome
    subst h200
    cases clen with
    | some n =>
      simp only [downloadUrlFetch]
      rw [if_neg (fun hc => hc rfl), if_neg (hnone n rfl)]
      simp only [downloadUrlBody]
      rw [if_pos hbody]
      exact ⟨rfl, rfl, rfl⟩
    | none =>
      simp only [downloadUrlFetch]
      rw [if_neg (fun hc => hc rfl)]
      simp only [downloadUrlBody]
      rw [if_pos hbody]
      exact ⟨rfl, rfl, rfl⟩

/-- C4 witness: the guard at two concrete responses, one with an oversize
declared Content-Length and one that omits the header but delivers an
oversize body. -/
theorem claim_C4_witness :
    ((download_url c4envHeader (String.toList "http://x/f.pdf") c3row c3state).1.status =
        RStatus.error ∧
      (download_url c4envHeader (String.toList "http://x/f.pdf") c3row c3state).2.fs =
        c3state.fs) ∧
    ((download_url c4envBody (String.toList "http://x/f.pdf") c3row c3state).1.status =
        RStatus.error ∧
      (download_url c4envBody (String.toList "http://x/f.pdf") c3row c3state).2.fs =
        c3state.fs) := by
  constructor
  · have h := (claim_C4 c4envHeader (String.toList "http://x/f.pdf") c3row c3state
      (by decide)).1 200 (String.toList "application/pdf") (MAX_FILE_SIZE + 1) []
      rfl rfl (by omega)
    exact ⟨h.1, h.2.2⟩
  · have h := (claim_C4 c4envBody (String.toList "http://x/f.pdf") c3row c3state
      (by decide)).2 200 (String.toList "application/pdf") none
      (List.replicate (MAX_FILE_SIZE + 1) 'x') rfl rfl
      (fun n hn => Option.noConfusion hn)
      (by rw [List.length_replicate]; omega)
    exact ⟨h.1, h.2.2⟩

end DownloadUrls

namespace UploadR2

open PyModel DownloadUrls

/-- C1 counterexample: re-running the upload pipeline on a progress store
that already marks its one file as successfully uploaded is NOT free of
network calls: `main` connects and issues a `head_bucket` request before it
filters out the already-uploaded keys, so the run performs one network call
(while indeed uploading nothing and leaving the progress store unchanged). -/
theorem claim_C1_counterexample :
    (∀ kv ∈ c1progress, kv.2.status = RStatus.success) ∧
    uploadMain [c1file] c1progress false (fun _ => true) =
      { headBucketCalls := 1, uploadCalls := 0, progressSaves := 0,
        finalProgress := c1progress } ∧
    (uploadMain [c1file] c1progress false (fun _ => true)).headBucketCalls ≠ 0 := by
  refine ⟨by decide, by decide, by decide⟩

end UploadR2

namespace DownloadUrls

open PyModel

/-- C1, amended: re-running each pipeline on state that already marks every
work item successful leaves the progress store and output unchanged and
performs zero per-item network operations; the download and cross-check
mains make no network call at all, but the upload main still performs its
one unconditional `head_bucket` connectivity request. -/
theorem claim_C1_amended :
    (∀ envOf urlsData progress errors fs,
      (∀ ud ∈ urlsData, isSuccessAt progress (envOf ud.1).md5hex = true) →
      downloadMain envOf urlsData progress errors fs =
        { netCalls := 0, finalProgress := progress, progressSaves := 0, fs := fs }) ∧
    (∀ files progress uploadOk,
      (∀ f ∈ files, ∃ kv ∈ progress, kv.2.s3Key = UploadR2.generate_s3_key f ∧
        kv.2.status = RStatus.success) →
      UploadR2.uploadMain files progress false uploadOk =
        { headBucketCalls := 1, uploadCalls := 0, progressSaves := 0,
          finalProgress := progress }) ∧
    (∀ rows extractOf,
      (∀ r ∈ rows, CheckPdf.hasUrl r = true → CheckPdf.processedRow r = true) →
      CheckPdf.process_csv rows extractOf = (0, rows)) := by
  refine ⟨?_, ?_, ?_⟩
  · intro envOf urlsData progress errors fs hall
    simp only [downloadMain]
    have hemp : (urlsData.filter (fun ud =>
        !(((progress.filter (fun kv => kv.2.status == RStatus.success)).map
          Prod.fst).contains (envOf ud.1).md5hex))).isEmpty = true := by
      rw [List.isEmpty_iff, List.filter_eq_nil_iff]
      intro ud hud
      have h := hall ud hud
      unfold isSuccessAt at h
      cases hget : pyDictGet progress (envOf ud.1).md5hex with
      | none => rw [hget] at h; simp at h
      | some r =>
        rw [hget] at h
        simp only [decide_eq_true_eq] at h
        unfold pyDictGet at hget
        rw [Option.map_eq_some'] at hget
        obtain ⟨kv, hfind, hsnd⟩ := hget
        have hkey : kv.1 = (envOf ud.1).md5hex := by simpa using List.find?_some hfind
        have hmem : kv ∈ progress := List.mem_of_find?_eq_some hfind
        have hc : (((progress.filter (fun kv => kv.2.status == RStatus.success)).map
            Prod.fst).contains (envOf ud.1).md5hex) = true := by
          refine List.elem_eq_true_of_mem ?_
          refine List.mem_map.2 ⟨kv, List.mem_filter.2 ⟨hmem, ?_⟩, hkey⟩
          simp [hsnd, h]
        simp only [hc, Bool.not_true]
        exact Bool.false_ne_true
    rw [if_pos hemp]
  · intro files progress uploadOk hall
    simp only [UploadR2.uploadMain]
    rw [if_neg Bool.false_ne_true]
    have hemp : (files.filter (fun f =>
        !(((progress.filter (fun kv => kv.2.status == RStatus.success)).map
          (fun kv => kv.2.s3Key)).contains (UploadR2.generate_s3_key f)))).isEmpty = true := by
      rw [List.isEmpty_iff, List.filter_eq_nil_iff]
      intro f hf
      obtain ⟨kv, hkv, hkey, hstat⟩ := hall f hf
      have hc : (((progress.filter (fun kv => kv.2.status == RStatus.success)).map
          (fun kv => kv.2.s3Key)).contains (UploadR2.generate_s3_key f)) = true := by
        refine List.elem_eq_true_of_mem ?_
        refine List.mem_map.2 ⟨kv, List.mem_filter.2 ⟨hkv, ?_⟩, hkey⟩
        simp [hstat]
      simp only [hc, Bool.not_true]
      exact Bool.false_ne_true
    rw [if_pos hemp]
  · intro rows extractOf hall
    simp only [CheckPdf.process_csv]
    have hempty : (rows.filter CheckPdf.hasUrl).filter
        (fun r => !CheckPdf.processedRow r) = [] := by
      rw [List.filter_eq_nil_iff]
      intro r hr
      rw [List.mem_filter] at hr
      have := hall r hr.1 hr.2
      simp [this]
    by_cases hproc : ((rows.filter CheckPdf.hasUrl).filter CheckPdf.processedRow).isEmpty = true
    · have hmap : rows.map (fun r =>
          if CheckPdf.hasUrl r && !CheckPdf.processedRow r then
            { r with modelRelated :=
                CheckPdf.process_single_row (extractOf r) r.model }
          else r) = rows.map id := by
        refine List.map_congr_left ?_
        intro r hr
        have hcond : (CheckPdf.hasUrl r && !CheckPdf.processedRow r) = false := by
          by_cases hu : CheckPdf.hasUrl r = true
          · simp [hu, hall r hr hu]
          · simp [Bool.eq_false_iff.2 hu]
        rw [hcond]
        simp
      rw [hempty, hproc]
      rw [if_neg (by decide)]
      rw [hmap, List.map_id]
      rfl
    · have hb2 : ((rows.filter CheckPdf.hasUrl).filter CheckPdf.processedRow).isEmpty =
          false := Bool.eq_false_iff.2 hproc
      rw [hempty, hb2]
      rw [if_pos (by decide)]

/-- C1 witness: the amended theorem at concrete all-done states for the
three pipelines. -/
theorem claim_C1_witness :
    UploadR2.uploadMain [UploadR2.c1file] UploadR2.c1progress false (fun _ => true) =
      { headBucketCalls := 1, uploadCalls := 0, progressSaves := 0,
        finalProgress := UploadR2.c1progress } ∧
    CheckPdf.process_csv
      [{ url := String.toList "http://x/a.pdf", cloudflare := [],
         contentType := String.toList "application/pdf",
         model := String.toList "X1", modelRelated := String.toList "Yes" }]
      (fun _ => CheckPdf.ExtractOutcome.exn []) =
      (0, [{ url := String.toList "http://x/a.pdf", cloudflare := [],
             contentType := String.toList "application/pdf",
             model := String.toList "X1", modelRelated := String.toList "Yes" }]) ∧
    downloadMain (fun _ =>
      { md5hex := String.toList "k", parsedPath := [], outcome := FetchOutcome.timeout,
        writeExn := none, htmlExtractOk := true }) [] [] [] [] =
      { netCalls := 0, finalProgress := [], progressSaves := 0, fs := [] } :=
  ⟨claim_C1_amended.2.1 [UploadR2.c1file] UploadR2.c1progress (fun _ => true)
      (by decide),
   claim_C1_amended.2.2 _ (fun _ => CheckPdf.ExtractOutcome.exn []) (by decide),
   claim_C1_amended.1 _ [] [] [] [] (by decide)⟩

end DownloadUrls
